import Mathlib

/-!
Verification of the gitea bridge of git-bug (`bridge/gitea`): a shallow
embedding in Lean 4 of the note classifier, the paginated iterators,
the import driver and the export driver, together with theorems about
the behaviours documented for them.

Go strings are modelled as `List Char`; Go's `strings` helpers used by the
bridge (`Split`, `Replace`, `TrimSuffix`, `HasPrefix`) are reproduced below
with the same semantics they have for the non-empty separators the bridge
uses.  Fallible or panicking Go code is modelled with `Option` (`none` is a
runtime panic).
-/

/-! ## Definitions -/

/-! ### Go string primitives (`strings` package, as used with non-empty separators) -/

abbrev Chars := List Char

/-- `strings.HasPrefix`. -/
def hasPrefixGo (p s : Chars) : Bool := p.isPrefixOf s

/-- The first occurrence of `sep` in `s`, as `some (before, after)`, scanning
left to right; `none` when `sep` (assumed non-empty) does not occur. -/
def splitFirst (sep : Chars) : Chars → Option (Chars × Chars)
  | [] => none
  | c :: cs =>
    if sep.isPrefixOf (c :: cs) then some ([], (c :: cs).drop sep.length)
    else match splitFirst sep cs with
      | none => none
      | some (b, a) => some (c :: b, a)

/-- Fuelled worker for `strings.Split`: split around each non-overlapping
occurrence of `sep`, left to right.  Each step removes at least
`sep.length ≥ 1` characters, so fuel `s.length + 1` is never exhausted. -/
def splitGoF (sep : Chars) : Nat → Chars → List Chars
  | 0, s => [s]
  | fuel + 1, s =>
    match splitFirst sep s with
    | none => [s]
    | some (b, a) => b :: splitGoF sep fuel a

/-- `strings.Split s sep` for a non-empty `sep`. -/
def splitGo (s sep : Chars) : List Chars := splitGoF sep (s.length + 1) s

/-- Fuelled worker for `strings.Replace` with count `-1` (replace all
non-overlapping occurrences, left to right). -/
def replaceGoF (old new : Chars) : Nat → Chars → Chars
  | 0, s => s
  | fuel + 1, s =>
    match splitFirst old s with
    | none => s
    | some (b, a) => b ++ new ++ replaceGoF old new fuel a

/-- `strings.Replace s old new -1` for a non-empty `old`. -/
def replaceGo (s old new : Chars) : Chars := replaceGoF old new (s.length + 1) s

/-- `strings.TrimSuffix`. -/
def trimSuffixGo (s suf : Chars) : Chars :=
  if suf.isSuffixOf s then s.take (s.length - suf.length) else s

/-- `strings.Contains s sub` for a non-empty `sub`. -/
def containsGo (s sub : Chars) : Bool := (splitFirst sub s).isSome

/-! ### The note classifier (`bridge/gitea`, `GetNoteType` / `getNewTitle`) -/

/-- A remote note (`gitea.Note`): the fields the bridge reads. -/
structure GNote where
  id : Nat
  system : Bool
  body : String
  author : Nat
  deriving DecidableEq

inductive NoteType where
  | NOTE_COMMENT
  | NOTE_CLOSED
  | NOTE_REOPENED
  | NOTE_DESCRIPTION_CHANGED
  | NOTE_LOCKED
  | NOTE_UNLOCKED
  | NOTE_TITLE_CHANGED
  | NOTE_CHANGED_DUEDATE
  | NOTE_REMOVED_DUEDATE
  | NOTE_ASSIGNED
  | NOTE_UNASSIGNED
  | NOTE_CHANGED_MILESTONE
  | NOTE_REMOVED_MILESTONE
  | NOTE_MENTIONED_IN_ISSUE
  | NOTE_MENTIONED_IN_MERGE_REQUEST
  | NOTE_UNKNOWN
  deriving DecidableEq

/-- `getNewTitle` parses the body diff given by the gitea api:
`strings.Split(diff, "** to **")[1]`, then `Replace "{+" ""`, then
`Replace "+}" ""`, then `TrimSuffix "**"`.  The index `[1]` panics (`none`)
when the separator does not occur. -/
def getNewTitle (diff : String) : Option String :=
  match splitGo diff.data "** to **".data with
  | _ :: newTitle :: _ =>
    some ⟨trimSuffixGo (replaceGo (replaceGo newTitle "\x7b+".data []) "+\x7d".data []) "**".data⟩
  | _ => none

/-- `GetNoteType`: classify a note's system flag and body; `none` is the panic
propagated from `getNewTitle`. -/
def GetNoteType (n : GNote) : Option (NoteType × String) :=
  if !n.system then some (.NOTE_COMMENT, n.body)
  else if n.body = "closed" then some (.NOTE_CLOSED, "")
  else if n.body = "reopened" then some (.NOTE_REOPENED, "")
  else if n.body = "changed the description" then some (.NOTE_DESCRIPTION_CHANGED, "")
  else if n.body = "locked this issue" then some (.NOTE_LOCKED, "")
  else if n.body = "unlocked this issue" then some (.NOTE_UNLOCKED, "")
  else if hasPrefixGo "changed title from".data n.body.data then
    (getNewTitle n.body).map (fun t => (.NOTE_TITLE_CHANGED, t))
  else if hasPrefixGo "changed due date to".data n.body.data then some (.NOTE_CHANGED_DUEDATE, "")
  else if n.body = "removed due date" then some (.NOTE_REMOVED_DUEDATE, "")
  else if hasPrefixGo "assigned to @".data n.body.data then some (.NOTE_ASSIGNED, "")
  else if hasPrefixGo "unassigned @".data n.body.data then some (.NOTE_UNASSIGNED, "")
  else if hasPrefixGo "changed milestone to %".data n.body.data then some (.NOTE_CHANGED_MILESTONE, "")
  else if hasPrefixGo "removed milestone".data n.body.data then some (.NOTE_REMOVED_MILESTONE, "")
  else if hasPrefixGo "mentioned in issue".data n.body.data then some (.NOTE_MENTIONED_IN_ISSUE, "")
  else if hasPrefixGo "mentioned in merge request".data n.body.data then some (.NOTE_MENTIONED_IN_MERGE_REQUEST, "")
  else some (.NOTE_UNKNOWN, "")


/-! ### The paginated iterators (`bridge/gitea/iterator`) -/

/-- A remote issue (`gitea.Issue`): the fields the bridge reads. -/
structure GIssue where
  iid : Nat
  author : Nat
  title : String
  description : String
  webUrl : String
  deriving DecidableEq

/-- A remote label event (`gitea.LabelEvent`): the fields the bridge reads. -/
structure GLabelEvent where
  id : Nat
  action : String
  labelName : String
  user : Nat
  deriving DecidableEq

/-- Result of one remote page fetch: the page's items together with the
response's reported total page count, or a transport error. -/
inductive FetchRes (α : Type) where
  | ok (items : List α) (totalPages : Nat)
  | fail (msg : String)
  deriving DecidableEq

/-- State of `issueIterator`: page counter, exhausted flag, cursor index into
the cached page (Go `int`, `-1` after a reset) and the cached page (`none` is
the nil slice). -/
structure IssueIter where
  page : Nat
  lastPage : Bool
  index : Int
  cache : Option (List GIssue)
  deriving DecidableEq

/-- Result of one `Next` call: the returned boolean, the returned error,
whether this call performed a page fetch, and the updated iterator state. -/
structure StepRes (σ : Type) where
  more : Bool
  err : Option String
  fetched : Bool
  state : σ
  deriving DecidableEq

/-- `issueIterator.Reset`. -/
def issueReset : IssueIter := ⟨1, false, -1, none⟩

/-- `issueIterator.Value`: `ii.cache[ii.index]`; `none` is the out-of-range
(or nil-slice) panic. -/
def issueValue (s : IssueIter) : Option GIssue :=
  match s.cache with
  | none => none
  | some c => if s.index < 0 then none else c.get? s.index.toNat

/-- `issueIterator.getNext`: fetch the current page unless the last page was
already seen; mark `lastPage` when the response's total page count equals the
page just fetched; an empty page yields `false` without touching the cache;
a fetch error resets the iterator and is returned. -/
def issueGetNext (fetch : Nat → FetchRes GIssue) (s : IssueIter) : StepRes IssueIter :=
  if s.lastPage then ⟨false, none, false, s⟩
  else
    match fetch s.page with
    | .fail e => ⟨false, some e, true, issueReset⟩
    | .ok issues total =>
      let s1 := if total = s.page then { s with lastPage := true } else s
      if issues.length = 0 then ⟨false, none, true, s1⟩
      else ⟨true, none, true, { s1 with cache := some issues, index := 0, page := s1.page + 1 }⟩

/-- `issueIterator.Next`: advance within the cached page when possible,
otherwise fetch. -/
def issueNext (fetch : Nat → FetchRes GIssue) (s : IssueIter) : StepRes IssueIter :=
  match s.cache with
  | none => issueGetNext fetch s
  | some c =>
    if s.index < (c.length : Int) - 1 then ⟨true, none, false, { s with index := s.index + 1 }⟩
    else issueGetNext fetch s

/-- State of `noteIterator`: like `issueIterator` plus the issue scope. -/
structure NoteIter where
  issue : Int
  page : Nat
  lastPage : Bool
  index : Int
  cache : Option (List GNote)
  deriving DecidableEq

/-- `noteIterator.Reset`. -/
def noteResetTo (issue : Int) : NoteIter := ⟨issue, 1, false, -1, none⟩

/-- `noteIterator.Value`. -/
def noteValue (s : NoteIter) : Option GNote :=
  match s.cache with
  | none => none
  | some c => if s.index < 0 then none else c.get? s.index.toNat

/-- `noteIterator.getNext` (same page-fetch loop as the issue iterator,
scoped to `s.issue`). -/
def noteGetNext (fetch : Int → Nat → FetchRes GNote) (s : NoteIter) : StepRes NoteIter :=
  if s.lastPage then ⟨false, none, false, s⟩
  else
    match fetch s.issue s.page with
    | .fail e => ⟨false, some e, true, noteResetTo (-1)⟩
    | .ok notes total =>
      let s1 := if total = s.page then { s with lastPage := true } else s
      if notes.length = 0 then ⟨false, none, true, s1⟩
      else ⟨true, none, true, { s1 with cache := some notes, index := 0, page := s1.page + 1 }⟩

/-- `noteIterator.Next`. -/
def noteNext (fetch : Int → Nat → FetchRes GNote) (s : NoteIter) : StepRes NoteIter :=
  match s.cache with
  | none => noteGetNext fetch s
  | some c =>
    if s.index < (c.length : Int) - 1 then ⟨true, none, false, { s with index := s.index + 1 }⟩
    else noteGetNext fetch s

/-- Modelled from the spec: the `labelEventIterator` source file is not under
`src/` (only `newLabelEventIterator`, `Reset` and `Next` calls appear there);
per the spec every child cursor follows the same page-fetch loop, so it is
modelled exactly like `noteIterator`. -/
structure LabelIter where
  issue : Int
  page : Nat
  lastPage : Bool
  index : Int
  cache : Option (List GLabelEvent)
  deriving DecidableEq

/-- Modelled from the spec: `labelEventIterator.Reset`. -/
def labelResetTo (issue : Int) : LabelIter := ⟨issue, 1, false, -1, none⟩

/-- Modelled from the spec: `labelEventIterator.getNext`, the same page-fetch
loop as the other two cursors. -/
def labelGetNext (fetch : Int → Nat → FetchRes GLabelEvent) (s : LabelIter) : StepRes LabelIter :=
  if s.lastPage then ⟨false, none, false, s⟩
  else
    match fetch s.issue s.page with
    | .fail e => ⟨false, some e, true, labelResetTo (-1)⟩
    | .ok evs total =>
      let s1 := if total = s.page then { s with lastPage := true } else s
      if evs.length = 0 then ⟨false, none, true, s1⟩
      else ⟨true, none, true, { s1 with cache := some evs, index := 0, page := s1.page + 1 }⟩

/-- Modelled from the spec: `labelEventIterator.Next`. -/
def labelNext (fetch : Int → Nat → FetchRes GLabelEvent) (s : LabelIter) : StepRes LabelIter :=
  match s.cache with
  | none => labelGetNext fetch s
  | some c =>
    if s.index < (c.length : Int) - 1 then ⟨true, none, false, { s with index := s.index + 1 }⟩
    else labelGetNext fetch s

/-- The remote listing API handed to the composite iterator: issues by page,
notes and label events by issue and page. -/
structure GRemote where
  issues : Nat → FetchRes GIssue
  notes : Int → Nat → FetchRes GNote
  labelEvents : Int → Nat → FetchRes GLabelEvent

/-- The composite `Iterator`: a sticky error and the three child cursors.
(The cancellable context is not modelled: `ctx.Err()` is taken as nil.) -/
structure CompIter where
  err : Option String
  issue : IssueIter
  note : NoteIter
  labelEvent : LabelIter

/-- `Iterator.NextIssue`: guarded by the sticky error; on a child error the
error becomes sticky; otherwise `issue.Value()` is read unconditionally to
re-scope the note and label-event cursors — `none` is the panic when that
read is out of range. -/
def nextIssueC (R : GRemote) (s : CompIter) : Option (Bool × Bool × CompIter) :=
  match s.err with
  | some _ => some (false, false, s)
  | none =>
    let r := issueNext R.issues s.issue
    match r.err with
    | some e => some (false, r.fetched, { s with issue := r.state, err := some e })
    | none =>
      match issueValue r.state with
      | none => none
      | some v =>
        some (r.more, r.fetched,
          { s with issue := r.state,
                   note := noteResetTo (v.iid : Int),
                   labelEvent := labelResetTo (v.iid : Int) })

/-- `Iterator.NextNote`. -/
def nextNoteC (R : GRemote) (s : CompIter) : Option (Bool × Bool × CompIter) :=
  match s.err with
  | some _ => some (false, false, s)
  | none =>
    let r := noteNext R.notes s.note
    match r.err with
    | some e => some (false, r.fetched, { s with note := r.state, err := some e })
    | none => some (r.more, r.fetched, { s with note := r.state })

/-- `Iterator.NextLabelEvent`. -/
def nextLabelC (R : GRemote) (s : CompIter) : Option (Bool × Bool × CompIter) :=
  match s.err with
  | some _ => some (false, false, s)
  | none =>
    let r := labelNext R.labelEvents s.labelEvent
    match r.err with
    | some e => some (false, r.fetched, { s with labelEvent := r.state, err := some e })
    | none => some (r.more, r.fetched, { s with labelEvent := r.state })

/-- One of the three composite advance calls. -/
inductive CallK where
  | issue
  | note
  | labelEvent
  deriving DecidableEq

def doCall (R : GRemote) : CallK → CompIter → Option (Bool × Bool × CompIter)
  | .issue => nextIssueC R
  | .note => nextNoteC R
  | .labelEvent => nextLabelC R

/-- Run a sequence of composite advance calls, collecting the returned
booleans and counting page fetches; `none` propagates a panic. -/
def runCalls (R : GRemote) : List CallK → CompIter → Option (List Bool × Nat × CompIter)
  | [], s => some ([], 0, s)
  | k :: ks, s =>
    match doCall R k s with
    | none => none
    | some (b, f, s2) =>
      match runCalls R ks s2 with
      | none => none
      | some (bs, n, s3) => some (b :: bs, (if f then 1 else 0) + n, s3)

/-- Repeatedly call `issueIterator.Next` (up to `fuel` times) until it
returns false, collecting each yielded `Value()` and counting page fetches. -/
def runNexts (fetch : Nat → FetchRes GIssue) : Nat → IssueIter → List (Option GIssue) × Nat × IssueIter
  | 0, s => ([], 0, s)
  | fuel + 1, s =>
    let r := issueNext fetch s
    if r.more then
      let rest := runNexts fetch fuel r.state
      (issueValue r.state :: rest.1, (if r.fetched then 1 else 0) + rest.2.1, rest.2.2)
    else ([], (if r.fetched then 1 else 0), r.state)

/-- `⌈n / p⌉`. -/
def ceilDiv (n p : Nat) : Nat := (n + p - 1) / p

/-- A faithful remote listing of `items` with page size `P`: page `p` holds
items `(p-1)*P` to `p*P - 1`, and every response reports `⌈N/P⌉` total
pages. -/
def listingFetch (items : List GIssue) (P : Nat) : Nat → FetchRes GIssue :=
  fun page => .ok ((items.drop ((page - 1) * P)).take P) (ceilDiv items.length P)


/-- `issueIterator.Reset` as a function of the receiver (it overwrites every
mutable field). -/
def issueResetFn (_s : IssueIter) : IssueIter := ⟨1, false, -1, none⟩

/-- Page `q` of a listing of `items` with page size `P`. -/
def pageChunk (items : List GIssue) (P q : Nat) : List GIssue :=
  (items.drop ((q - 1) * P)).take P

/-- The iterator state while page `q` is cached with the cursor at offset
`r`: the next page counter is `q + 1`, and `lastPage` is set exactly when the
reported total page count equals `q`. -/
def midState (items : List GIssue) (P q r : Nat) : IssueIter :=
  ⟨q + 1, decide (ceilDiv items.length P = q), (r : Int), some (pageChunk items P q)⟩


/-! ### Metadata, operations and bugs (`bridge/gitea` import/export drivers) -/

/-- A metadata (or configuration) value.  Go stores all of these as strings;
numeric remote ids — written with `fmt.Sprintf("%d", id)` and read back with
`strconv.Atoi` — are modelled with the `nat` constructor, which is faithful
because the decimal rendering is injective and the bridge never compares a
rendered id against any of its (non-numeric) plain string values. -/
inductive MetaVal where
  | str (s : String)
  | nat (n : Nat)
  deriving DecidableEq

abbrev Meta := List (String × MetaVal)

def metaLookup (m : Meta) (k : String) : Option MetaVal :=
  (m.find? (fun kv => kv.1 == k)).map (fun kv => kv.2)

/-- `target` constant. -/
def target : String := "gitea"

def metaKeyGiteaId : String := "gitea-id"

def metaKeyGiteaUrl : String := "gitea-url"

def metaKeyGiteaLogin : String := "gitea-login"

def metaKeyGiteaBaseUrl : String := "gitea-base-url"

/-- Modelled from the spec: the constant `metaKeyGiteaProject` is referenced
by `gitea.go` but its definition is not under `src/`; the spec lists a
remote-project metadata key distinct from the others. -/
def metaKeyGiteaProject : String := "gitea-project"

/-- Modelled from the spec: `core.MetaKeyOrigin` (the origin tag key) lives in
`bridge/core`, outside `src/`. -/
def metaKeyOrigin : String := "origin"

/-- The configuration entries the two drivers read.  `projectId` is
`conf[confKeyProjectID]`, a key referenced but not defined under `src/`. -/
structure GConf where
  baseUrl : String
  projectId : String
  owner : String
  project : String
  deriving DecidableEq

/-- `parseID`: `fmt.Sprintf("%d", id)` (see `MetaVal`). -/
def parseID (id : Nat) : MetaVal := .nat id

/-- `strconv.Atoi` applied to a metadata value. -/
def mAtoi : MetaVal → Option Nat
  | .nat n => some n
  | .str s => s.toNat?

inductive BStatus where
  | openStatus
  | closedStatus
  deriving DecidableEq

/-- A local operation's payload (`bug.*Operation`). -/
inductive OpData where
  | create (title message : String)
  | addComment (message : String)
  | editComment (target : Nat) (message : String)
  | setStatus (status : BStatus)
  | setTitle (title : String)
  | labelChange (added removed : List String)
  | setMetadata (target : Nat)
  deriving DecidableEq

/-- A local operation: its id, its author's identity id, its payload and its
metadata map. -/
structure Op where
  id : Nat
  author : Nat
  data : OpData
  meta : Meta
  deriving DecidableEq

/-- A local bug: the creation operation followed by the rest of the log. -/
structure GBug where
  createOp : Op
  rest : List Op
  deriving DecidableEq

def bugOps (b : GBug) : List Op := b.createOp :: b.rest

def getCreateMeta (b : GBug) (k : String) : Option MetaVal :=
  metaLookup b.createOp.meta k

/-- Go map indexing (`CreateMetadata[k]`): a missing key reads as the zero
value `""`. -/
def metaGetD (o : Op) (k : String) : MetaVal := (metaLookup o.meta k).getD (.str "")

/-- `SetMetadataOperation.Apply`: set only the keys not already present. -/
def metaApply (m : Meta) (new : Meta) : Meta :=
  new.foldl (fun acc kv => if metaLookup acc kv.1 = none then acc ++ [kv] else acc) m

/-- `b.SetMetadata(target, m)`: apply the metadata to the targeted operation
and append a `SetMetadataOperation` to the log (its own id and author are
irrelevant to the drivers, which skip it by kind; `0` is used here). -/
def setMetadataOn (b : GBug) (tid : Nat) (new : Meta) : GBug :=
  ⟨(if b.createOp.id = tid then { b.createOp with meta := metaApply b.createOp.meta new }
    else b.createOp),
   (b.rest.map (fun o => if o.id = tid then { o with meta := metaApply o.meta new } else o)) ++
     [⟨0, 0, .setMetadata tid, []⟩]⟩

/-- `b.ResolveOperationWithMetadata`: exactly one matching operation, none, or
several (an error). -/
inductive ResolveRes where
  | found (id : Nat)
  | noMatch
  | multiple
  deriving DecidableEq

def resolveOpWithMeta (b : GBug) (k : String) (v : MetaVal) : ResolveRes :=
  match (bugOps b).filter (fun o => metaLookup o.meta k == some v) with
  | [] => .noMatch
  | [o] => .found o.id
  | _ => .multiple

def isFound : ResolveRes → Bool
  | .found _ => true
  | _ => false

/-- The comment list of a bug snapshot: the creation message is comment 0
(keyed by the creation operation id), `AddComment` appends, `EditComment`
rewrites its target's message. -/
def snapComments (b : GBug) : List (Nat × String) :=
  (bugOps b).foldl (fun acc o =>
    match o.data with
    | .create _ msg => acc ++ [(o.id, msg)]
    | .addComment msg => acc ++ [(o.id, msg)]
    | .editComment t msg => acc.map (fun c => if c.1 = t then (c.1, msg) else c)
    | _ => acc) []

/-! ### The import driver (`giteaImporter`) -/

/-- The creation metadata written by `ensureIssue` when a bug is first
imported. -/
def issueCreateMeta (conf : GConf) (issue : GIssue) : Meta :=
  [(metaKeyOrigin, .str target),
   (metaKeyGiteaId, parseID issue.iid),
   (metaKeyGiteaUrl, .str issue.webUrl),
   (metaKeyGiteaProject, .str conf.projectId),
   (metaKeyGiteaBaseUrl, .str conf.baseUrl)]

/-- The `ResolveBugMatcher` predicate of `ensureIssue`, exactly as in the
source: note that the stored base-url metadata is compared against the
`projectId` configuration entry and the stored project metadata against the
`baseUrl` configuration entry. -/
def bugMatcher (conf : GConf) (issue : GIssue) (e : GBug) : Bool :=
  metaGetD e.createOp metaKeyOrigin == .str target &&
  metaGetD e.createOp metaKeyGiteaId == parseID issue.iid &&
  metaGetD e.createOp metaKeyGiteaBaseUrl == .str conf.projectId &&
  metaGetD e.createOp metaKeyGiteaProject == .str conf.baseUrl

/-- The resolve-or-create matcher as the claim words it: each stored metadata
key compared against its own configured value.  This definition follows the
spec, for comparison with `bugMatcher`, which is translated from the
source. -/
def claimBugMatcher (conf : GConf) (issue : GIssue) (e : GBug) : Bool :=
  metaGetD e.createOp metaKeyOrigin == .str target &&
  metaGetD e.createOp metaKeyGiteaId == parseID issue.iid &&
  metaGetD e.createOp metaKeyGiteaProject == .str conf.projectId &&
  metaGetD e.createOp metaKeyGiteaBaseUrl == .str conf.baseUrl

/-- `ensureIssue`'s resolve-or-create step: search the store with the matcher;
reuse a unique match, create a new bug (with fresh operation id `freshId`)
when nothing matches, error (`none`) on an ambiguous match.  Returns the
resolved bug, whether it was newly created, and the updated store.  `clean`
is the external `text.Cleanup` collaborator. -/
def ensureIssue (conf : GConf) (clean : String → String) (repo : List GBug)
    (issue : GIssue) (freshId : Nat) : Option (GBug × Bool × List GBug) :=
  match repo.filter (bugMatcher conf issue) with
  | [b] => some (b, false, repo)
  | [] =>
    let nb : GBug :=
      ⟨⟨freshId, issue.author, .create issue.title (clean issue.description),
        issueCreateMeta conf issue⟩, []⟩
    some (nb, true, repo ++ [nb])
  | _ => none

def appendOp (b : GBug) (o : Op) : GBug := ⟨b.createOp, b.rest ++ [o]⟩

/-- `ensureNote`: dedup by the note's remote id, classify, and append the
corresponding operation.  `none` is an error or a classifier panic.  The
operation appended for a detected comment edition carries `nil` metadata,
exactly as in the source. -/
def ensureNote (clean : String → String) (issue : GIssue) (b : GBug) (note : GNote)
    (freshId : Nat) : Option GBug :=
  let gid := parseID note.id
  let r := resolveOpWithMeta b metaKeyGiteaId gid
  if r = .multiple then none
  else
    match GetNoteType note with
    | none => none
    | some (nt, body) =>
      match nt with
      | .NOTE_CLOSED =>
        if isFound r then some b
        else some (appendOp b ⟨freshId, note.author, .setStatus .closedStatus,
          [(metaKeyGiteaId, gid)]⟩)
      | .NOTE_REOPENED =>
        if isFound r then some b
        else some (appendOp b ⟨freshId, note.author, .setStatus .openStatus,
          [(metaKeyGiteaId, gid)]⟩)
      | .NOTE_DESCRIPTION_CHANGED =>
        match snapComments b with
        | [] => none
        | fc :: _ =>
          if r = .noMatch ∧ issue.description ≠ fc.2 then
            some (appendOp b ⟨freshId, note.author, .editComment fc.1 issue.description,
              [(metaKeyGiteaId, gid)]⟩)
          else some b
      | .NOTE_COMMENT =>
        match r with
        | .noMatch =>
          some (appendOp b ⟨freshId, note.author, .addComment (clean body),
            [(metaKeyGiteaId, gid)]⟩)
        | .found id =>
          match (snapComments b).find? (fun c => c.1 == id) with
          | none => none
          | some c =>
            if c.2 ≠ clean body then
              some (appendOp b ⟨freshId, note.author, .editComment c.1 (clean body), []⟩)
            else some b
        | .multiple => none
      | .NOTE_TITLE_CHANGED =>
        if isFound r then some b
        else some (appendOp b ⟨freshId, note.author, .setTitle body,
          [(metaKeyGiteaId, gid)]⟩)
      | _ => some b

/-- `ensureLabelEvent`: dedup by remote id (an existing match — `err == nil` —
returns nil, skipping), then append a one-label `LabelChange`. -/
def ensureLabelEvent (b : GBug) (ev : GLabelEvent) (freshId : Nat) : Option GBug :=
  match resolveOpWithMeta b metaKeyGiteaId (parseID ev.id) with
  | .found _ => some b
  | .multiple => none
  | .noMatch =>
    if ev.action = "add" then
      some (appendOp b ⟨freshId, ev.user, .labelChange [ev.labelName] [],
        [(metaKeyGiteaId, parseID ev.id)]⟩)
    else if ev.action = "remove" then
      some (appendOp b ⟨freshId, ev.user, .labelChange [] [ev.labelName],
        [(metaKeyGiteaId, parseID ev.id)]⟩)
    else none

def importNotes (clean : String → String) (issue : GIssue) :
    List GNote → GBug → Nat → Option (GBug × Nat)
  | [], b, fid => some (b, fid)
  | n :: ns, b, fid =>
    match ensureNote clean issue b n fid with
    | none => none
    | some b2 => importNotes clean issue ns b2 (fid + 1)

def importLabelEvents : List GLabelEvent → GBug → Nat → Option (GBug × Nat)
  | [], b, fid => some (b, fid)
  | ev :: evs, b, fid =>
    match ensureLabelEvent b ev fid with
    | none => none
    | some b2 => importLabelEvents evs b2 (fid + 1)

/-- One fresh import of a remote issue into an empty store: create the bug,
then walk its notes and its label events in order, as `ImportAll` does. -/
def importIssue (conf : GConf) (clean : String → String) (issue : GIssue)
    (notes : List GNote) (labelEvents : List GLabelEvent) : Option GBug :=
  match ensureIssue conf clean [] issue 1 with
  | none => none
  | some (b, _, _) =>
    match importNotes clean issue notes b 2 with
    | none => none
    | some (b2, fid) =>
      match importLabelEvents labelEvents b2 fid with
      | none => none
      | some (b3, _) => some b3

/-! ### The export driver (`giteaExporter`) -/

/-- A stored credential (`auth.Token` with its metadata). -/
structure Cred where
  credId : String
  login : Option String
  token : String
  deriving DecidableEq

/-- Result of `ResolveIdentityImmutableMetadata` on a login. -/
inductive RIdRes where
  | found (id : Nat)
  | notExist
  | err
  deriving DecidableEq

/-- The per-identity client cache: identity id to the token the client was
built with. -/
abbrev Clients := List (Nat × String)

def getIdentityClient (cl : Clients) (uid : Nat) : Option String :=
  (cl.find? (fun p => p.1 == uid)).map (fun p => p.2)

/-- The loop body of `cacheAllClient`.  `tok0` is `creds[0]`'s token: the
source builds every client from `creds[0].(*auth.Token)`, not from the
credential being iterated.  A credential without a login metadata is skipped
with a warning; an unknown identity is skipped; any other resolution error
makes the function return (`return nil`), keeping the cache built so far. -/
def cacheAllClientGo (tok0 : String) (resolve : String → RIdRes) :
    List Cred → Clients → Clients
  | [], cache => cache
  | c :: cs, cache =>
    match c.login with
    | none => cacheAllClientGo tok0 resolve cs cache
    | some l =>
      match resolve l with
      | .notExist => cacheAllClientGo tok0 resolve cs cache
      | .err => cache
      | .found uid =>
        if (cache.find? (fun p => p.1 == uid)).isSome then
          cacheAllClientGo tok0 resolve cs cache
        else cacheAllClientGo tok0 resolve cs (cache ++ [(uid, tok0)])

/-- `cacheAllClient`. -/
def cacheAllClient (creds : List Cred) (resolve : String → RIdRes) : Clients :=
  match creds with
  | [] => []
  | c0 :: _ => cacheAllClientGo c0.token resolve creds []

/-- A remote write call issued by the export driver, tagged with the token of
the client that issued it.  Label sets are pushed whole; Go materializes the
set by iterating a map in unspecified order, so the payload is a
`Finset`. -/
inductive RCall where
  | createIssue (token : String) (owner repo title body : String)
  | addComment (token : String) (issueId : Nat) (body : String)
  | editComment (token : String) (issueId noteId : Nat) (body : String)
  | updateBody (token : String) (issueId : Nat) (body : String)
  | updateStatus (token : String) (issueId : Nat) (stateEvent : String)
  | updateTitle (token : String) (issueId : Nat) (title : String)
  | updateLabels (token : String) (issueId : Nat) (labels : Finset String)
  deriving DecidableEq

/-- An export result event sent on the out channel. -/
inductive ERes where
  | nothingE (reason : String)
  | errorE (msg : String)
  | bugE
  | commentE
  | commentEditionE
  | statusChangeE
  | titleEditionE
  | labelChangeE
  deriving DecidableEq

/-- The remote write API's responses: the created issue's id, sequential
number and url, and the id of each successively created note. -/
structure WRemote where
  createdId : Nat
  createdIID : Nat
  createdUrl : String
  noteId : Nat → Nat

/-- `updateGiteaIssueStatus`'s state event (the Go `default: panic` branch is
unreachable on the closed two-value status type). -/
def statusEventStr : BStatus → String
  | .openStatus => "reopen"
  | .closedStatus => "close"

/-- The mutable state of the export walk over one bug. -/
structure WalkSt where
  bug : GBug
  labelSet : Finset String
  cachedIds : List (Nat × MetaVal)
  updated : Bool
  noteCtr : Nat
  events : List ERes
  calls : List RCall

/-- `markOperationAsExported` followed by `CommitAsNeeded` (a no-op here) and
`bugUpdated = true`.  The `url` argument is the walk's `url` variable, which
is never assigned: the zero value `""` is recorded. -/
def markExported (st : WalkSt) (tid : Nat) (id : Nat) : WalkSt :=
  { st with
    bug := setMetadataOn st.bug tid [(metaKeyGiteaId, parseID id), (metaKeyGiteaUrl, .str "")],
    updated := true }

/-- The walk of `exportBug` over `snapshot.Operations[1:]`: skip `SetMetadata`
operations, skip (and cache) operations already tagged with a remote id, skip
operations whose author has no cached client, and dispatch the rest to the
remote write API.  The second component is false when the walk returned
early with an export error; `none` is the `panic` on an unhandled operation
kind. -/
def walkOps (clients : Clients) (R : WRemote) (bugGiteaID : Nat) (bugCreationId : Nat) :
    List Op → WalkSt → Option (WalkSt × Bool)
  | [], st => some (st, true)
  | op :: ops, st =>
    match op.data with
    | .setMetadata _ => walkOps clients R bugGiteaID bugCreationId ops st
    | _ =>
      match metaLookup op.meta metaKeyGiteaId with
      | some v =>
        walkOps clients R bugGiteaID bugCreationId ops
          { st with cachedIds := st.cachedIds ++ [(op.id, v)] }
      | none =>
        match getIdentityClient clients op.author with
        | none => walkOps clients R bugGiteaID bugCreationId ops st
        | some tok =>
          match op.data with
          | .create _ _ => none
          | .setMetadata _ => none
          | .addComment msg =>
            let nid := R.noteId st.noteCtr
            let st1 := { st with
              calls := st.calls ++ [.addComment tok bugGiteaID msg],
              events := st.events ++ [.commentE],
              cachedIds := st.cachedIds ++ [(op.id, parseID nid)],
              noteCtr := st.noteCtr + 1 }
            walkOps clients R bugGiteaID bugCreationId ops (markExported st1 op.id nid)
          | .editComment tid msg =>
            if tid = bugCreationId then
              let st1 := { st with
                calls := st.calls ++ [.updateBody tok bugGiteaID msg],
                events := st.events ++ [.commentEditionE] }
              walkOps clients R bugGiteaID bugCreationId ops (markExported st1 op.id bugGiteaID)
            else
              match (st.cachedIds.find? (fun p => p.1 == tid)).map (fun p => p.2) with
              | none =>
                some ({ st with events := st.events ++ [.errorE "comment id not found"] }, false)
              | some cid =>
                match mAtoi cid with
                | none =>
                  some ({ st with
                    events := st.events ++ [.errorE "unexpected comment id format"] }, false)
                | some cidN =>
                  let st1 := { st with
                    calls := st.calls ++ [.editComment tok bugGiteaID cidN msg],
                    events := st.events ++ [.commentEditionE] }
                  walkOps clients R bugGiteaID bugCreationId ops (markExported st1 op.id cidN)
          | .setStatus stv =>
            let st1 := { st with
              calls := st.calls ++ [.updateStatus tok bugGiteaID (statusEventStr stv)],
              events := st.events ++ [.statusChangeE] }
            walkOps clients R bugGiteaID bugCreationId ops (markExported st1 op.id bugGiteaID)
          | .setTitle t =>
            let st1 := { st with
              calls := st.calls ++ [.updateTitle tok bugGiteaID t],
              events := st.events ++ [.titleEditionE] }
            walkOps clients R bugGiteaID bugCreationId ops (markExported st1 op.id bugGiteaID)
          | .labelChange added removed =>
            let ls1 := added.foldl (fun acc l => insert l acc) st.labelSet
            let ls2 := removed.foldl (fun acc l => acc.erase l) ls1
            let st1 := { st with
              labelSet := ls2,
              calls := st.calls ++ [.updateLabels tok bugGiteaID ls2],
              events := st.events ++ [.labelChangeE] }
            walkOps clients R bugGiteaID bugCreationId ops (markExported st1 op.id bugGiteaID)

/-- Does the bug carry an origin tag naming another bridge?  (A missing tag
passes; Go's map read yields `""` which always differs from `target`.) -/
def originSkip (b : GBug) : Bool :=
  match getCreateMeta b metaKeyOrigin with
  | some o => o != .str target
  | none => false

/-- `exportBug`: publish one bug and its events.  The result is the ordered
event list, the ordered remote write calls, the updated bug, and whether the
walk ran to completion; `none` is a panic.  The recorded `gitea-base-url`
written after a creation is the function's `GiteaBaseUrl` variable, which is
declared and never assigned: the empty string. -/
def exportBug (conf : GConf) (clients : Clients) (R : WRemote) (b : GBug) :
    Option (List ERes × List RCall × GBug × Bool) :=
  if originSkip b then some ([.nothingE "issue tagged with origin"], [], b, false)
  else
    let runWalk := fun (bugGiteaID : Nat) (cache0 : List (Nat × MetaVal))
        (events0 : List ERes) (calls0 : List RCall) (b0 : GBug) =>
      match walkOps clients R bugGiteaID b.createOp.id b.rest
          ⟨b0, ∅, cache0, false, 0, events0, calls0⟩ with
      | none => none
      | some (st, finished) =>
        let evs := if finished && !st.updated then
            st.events ++ [.nothingE "nothing has been exported"] else st.events
        some (evs, st.calls, st.bug, finished)
    match getCreateMeta b metaKeyGiteaId with
    | some gid =>
      match getCreateMeta b metaKeyGiteaBaseUrl with
      | some burl =>
        if burl ≠ .str conf.baseUrl then
          some ([.nothingE "skipping issue imported from another Gitea instance"], [], b, false)
        else
          match getCreateMeta b metaKeyGiteaProject with
          | none => some ([.errorE "expected to find gitea project id"], [], b, false)
          | some proj =>
            if proj ≠ .str conf.projectId then
              some ([.nothingE "skipping issue imported from another repository"], [], b, false)
            else
              match mAtoi gid with
              | none => some ([.errorE "unexpected gitea id format"], [], b, false)
              | some bugGiteaID => runWalk bugGiteaID [(b.createOp.id, gid)] [] [] b
      | none =>
        match getCreateMeta b metaKeyGiteaProject with
        | none => some ([.errorE "expected to find gitea project id"], [], b, false)
        | some proj =>
          if proj ≠ .str conf.projectId then
            some ([.nothingE "skipping issue imported from another repository"], [], b, false)
          else
            match mAtoi gid with
            | none => some ([.errorE "unexpected gitea id format"], [], b, false)
            | some bugGiteaID => runWalk bugGiteaID [(b.createOp.id, gid)] [] [] b
    | none =>
      match getIdentityClient clients b.createOp.author with
      | none => some ([.nothingE "missing author token"], [], b, false)
      | some tok =>
        match b.createOp.data with
        | .create title message =>
          let iid := R.createdIID
          let b1 := setMetadataOn b b.createOp.id
            [(metaKeyGiteaId, parseID iid), (metaKeyGiteaUrl, .str R.createdUrl),
             (metaKeyGiteaBaseUrl, .str "")]
          runWalk iid [(b.createOp.id, parseID iid)] [.bugE]
            [.createIssue tok conf.owner conf.project title message] b1
        | _ => none


/-! ### Concrete instances used by the duplicate-import and export-resume theorems -/

def c1conf : GConf := ⟨"https://gitea.com/", "owner/repo", "owner", "repo"⟩

def c1issue : GIssue := ⟨1, 7, "t", "d", "u"⟩

def c1bug : GBug := ⟨⟨1, 7, .create "t" "d", issueCreateMeta c1conf c1issue⟩, []⟩

def c1bugDup : GBug := ⟨⟨2, 7, .create "t" "d", issueCreateMeta c1conf c1issue⟩, []⟩

def c4conf : GConf := ⟨"https://gitea.com/", "owner/repo", "owner", "repo"⟩

def c4bug0 : GBug := ⟨⟨1, 7, .create "t" "m", []⟩, []⟩

def c4remote : WRemote := ⟨10, 4, "https://gitea.com/owner/repo/issues/4", fun _ => 0⟩

def c4bug1 : GBug :=
  ⟨⟨1, 7, .create "t" "m",
    [(metaKeyGiteaId, parseID 4),
     (metaKeyGiteaUrl, .str "https://gitea.com/owner/repo/issues/4"),
     (metaKeyGiteaBaseUrl, .str "")]⟩,
   [⟨0, 0, .setMetadata 1, []⟩]⟩


/-! ### The running label set, specified independently of the walk -/

def isSetMetaOp (o : Op) : Bool :=
  match o.data with
  | .setMetadata _ => true
  | _ => false

/-- An operation of the walk reaches the dispatch switch iff it is not a
`SetMetadata`, carries no remote id tag, and its author has a cached
client. -/
def shouldProcess (clients : Clients) (o : Op) : Bool :=
  !(isSetMetaOp o) && (metaLookup o.meta metaKeyGiteaId).isNone &&
    (getIdentityClient clients o.author).isSome

/-- The running label set after each dispatched `LabelChange`: insert the
added labels, erase the removed ones, and record the resulting whole set. -/
def labelSetTrace (S : Finset String) : List Op → List (Finset String)
  | [] => []
  | o :: os =>
    match o.data with
    | .labelChange added removed =>
      let S2 := removed.foldl (fun acc l => acc.erase l)
        (added.foldl (fun acc l => insert l acc) S)
      S2 :: labelSetTrace S2 os
    | _ => labelSetTrace S os

/-- The label payloads among a list of remote calls, in order. -/
def labelCallsOf : List RCall → List (Finset String)
  | [] => []
  | .updateLabels _ _ ls :: cs => ls :: labelCallsOf cs
  | _ :: cs => labelCallsOf cs


/-! ### Concrete instance for the label-replacement example -/

def c8conf : GConf := ⟨"https://gitea.com/", "owner/repo", "owner", "repo"⟩

def c8clients : Clients := [(7, "tok")]

def c8remote : WRemote := ⟨0, 0, "", fun _ => 0⟩

/-- An imported bug with two label operations: add `{A, B}`, then remove
`{A}`. -/
def c8bug : GBug :=
  ⟨⟨1, 7, .create "t" "d",
    [(metaKeyGiteaId, parseID 1), (metaKeyGiteaBaseUrl, .str "https://gitea.com/"),
     (metaKeyGiteaProject, .str "owner/repo")]⟩,
   [⟨2, 7, .labelChange ["A", "B"] [], []⟩,
    ⟨3, 7, .labelChange [] ["A"], []⟩]⟩

def c8events : List ERes := [.labelChangeE, .labelChangeE]

def c8calls : List RCall :=
  [.updateLabels "tok" 1 (insert "B" (insert "A" (∅ : Finset String))),
   .updateLabels "tok" 1 ((insert "B" (insert "A" (∅ : Finset String))).erase "A")]

def c8bugExp : GBug :=
  ⟨⟨1, 7, .create "t" "d",
    [(metaKeyGiteaId, parseID 1), (metaKeyGiteaBaseUrl, .str "https://gitea.com/"),
     (metaKeyGiteaProject, .str "owner/repo")]⟩,
   [⟨2, 7, .labelChange ["A", "B"] [], [(metaKeyGiteaId, parseID 1), (metaKeyGiteaUrl, .str "")]⟩,
    ⟨3, 7, .labelChange [] ["A"], [(metaKeyGiteaId, parseID 1), (metaKeyGiteaUrl, .str "")]⟩,
    ⟨0, 0, .setMetadata 2, []⟩,
    ⟨0, 0, .setMetadata 3, []⟩]⟩


/-! ### Concrete instance for the round-trip counterexample -/

def c3conf : GConf := ⟨"https://gitea.com/", "owner/repo", "owner", "repo"⟩

def c3issue : GIssue := ⟨1, 7, "t", "d", "u"⟩

/-- A plain comment note whose remote id collides with the issue's IID. -/
def c3note : GNote := ⟨1, false, "other", 7⟩

def c3clients : Clients := [(7, "tok")]

def c3remote : WRemote := ⟨0, 0, "", fun _ => 0⟩

/-- The bug produced by a fresh import of `c3issue` with `c3note`: the
comment-edition operation appended by `ensureNote`'s already-mapped branch
carries nil metadata. -/
def c3bug : GBug :=
  ⟨⟨1, 7, .create "t" "d", issueCreateMeta c3conf c3issue⟩,
   [⟨2, 7, .editComment 1 "other", []⟩]⟩

def c3bugExp : GBug :=
  ⟨⟨1, 7, .create "t" "d", issueCreateMeta c3conf c3issue⟩,
   [⟨2, 7, .editComment 1 "other", [(metaKeyGiteaId, parseID 1), (metaKeyGiteaUrl, .str "")]⟩,
    ⟨0, 0, .setMetadata 2, []⟩]⟩

/-- A plain comment note whose remote id (5) differs from the issue's IID
(1), as a faithful remote listing has. -/
def c3wNote : GNote := ⟨5, false, "hello", 7⟩

/-- The bug produced by a fresh import of `c3issue` with the non-colliding
note `c3wNote`: the comment operation is tagged with the note's remote id. -/
def c3wBug : GBug :=
  ⟨⟨1, 7, .create "t" "d", issueCreateMeta c3conf c3issue⟩,
   [⟨2, 7, .addComment "hello", [(metaKeyGiteaId, parseID 5)]⟩]⟩

/-! ## Theorems -/

/-! ### String lemmas -/

theorem splitFirst_decomp {sep s b a : Chars} (h : splitFirst sep s = some (b, a)) :
    s = b ++ sep ++ a := by
  induction s generalizing b a with
  | nil => simp [splitFirst] at h
  | cons c cs ih =>
    rw [splitFirst] at h
    split at h
    · rename_i hpre
      rw [List.isPrefixOf_iff_prefix] at hpre
      obtain ⟨t, ht⟩ := hpre
      have hd : (c :: cs).drop sep.length = t := by rw [← ht, List.drop_left]
      obtain ⟨rfl, rfl⟩ : b = [] ∧ a = (c :: cs).drop sep.length := by
        simpa using h.symm
      rw [hd, List.nil_append, ht]
    · rename_i hpre
      cases h2 : splitFirst sep cs with
      | none => rw [h2] at h; simp at h
      | some ba =>
        obtain ⟨b', a'⟩ := ba
        rw [h2] at h
        simp only [Option.some.injEq, Prod.mk.injEq] at h
        obtain ⟨rfl, rfl⟩ : b = c :: b' ∧ a = a' := ⟨h.1.symm ▸ rfl, h.2.symm ▸ rfl⟩
        simp [ih h2]

theorem splitFirst_at {sep : Chars} (hsep : sep ≠ []) :
    ∀ (z w : Chars), (∀ j < z.length, ¬ sep.isPrefixOf ((z ++ sep ++ w).drop j)) →
      splitFirst sep (z ++ sep ++ w) = some (z, w) := by
  intro z
  induction z with
  | nil =>
    intro w _
    obtain ⟨c, cs⟩ := sep
    · exact absurd rfl hsep
    simp only [List.nil_append, List.cons_append]
    rw [splitFirst]
    rw [if_pos]
    · simp [List.drop_left']
    · rw [List.isPrefixOf_iff_prefix]
      exact ⟨w, by simp⟩
  | cons c z ih =>
    intro w hno
    rw [List.cons_append, List.cons_append, splitFirst, if_neg]
    · have := ih w (fun j hj => by
        have := hno (j + 1) (by simpa using Nat.succ_lt_succ hj)
        simpa using this)
      rw [this]
    · have := hno 0 (by simp)
      simpa using this

theorem splitFirst_none {sep : Chars} :
    ∀ s : Chars, (∀ j, ¬ sep.isPrefixOf (s.drop j)) → splitFirst sep s = none := by
  intro s
  induction s with
  | nil => intro _; rfl
  | cons c cs ih =>
    intro h
    rw [splitFirst, if_neg (by simpa using h 0)]
    rw [ih (fun j => by simpa using h (j + 1))]

theorem prefix_get {sep s : Chars} {j : Nat} (h : sep.isPrefixOf (s.drop j)) :
    ∀ i < sep.length, s.get? (j + i) = sep.get? i := by
  rw [List.isPrefixOf_iff_prefix] at h
  obtain ⟨t, ht⟩ := h
  intro i hi
  have h1 : (s.drop j).get? i = sep.get? i := by rw [← ht]; exact List.get?_append hi
  rw [← h1, List.get?_drop]

theorem no_early_occ (old w : Chars) (hstar : '*' ∉ old) (hto : old ≠ " to ".data) :
    ∀ j < ("changed title from **".data ++ old).length,
      ¬ ("** to **".data).isPrefixOf
        ((("changed title from **".data ++ old) ++ "** to **".data ++ w).drop j) := by
  intro j hj hpre
  have hs : (("changed title from **".data ++ old) ++ "** to **".data ++ w)
      = "changed title from **".data ++ (old ++ ("** to **".data ++ w)) := by simp
  rw [hs] at hpre
  have hg := prefix_get hpre
  simp only [List.length_append] at hj
  have hlenpre : ("changed title from **".data).length = 21 := by decide
  rw [hlenpre] at hj
  set u : Chars := old ++ ("** to **".data ++ w) with hu
  have hget : ∀ i : Nat, 21 ≤ j + i →
      ("changed title from **".data ++ u).get? (j + i) = u.get? (j + i - 21) := by
    intro i hi
    rw [List.get?_append_right (by rw [hlenpre]; omega), hlenpre]
  rcases Nat.lt_or_ge j 19 with h19 | h19
  · have h0 := hg 0 (by decide)
    rw [Nat.add_zero] at h0
    have : ("changed title from **".data ++ u).get? j = ("changed title from **".data).get? j :=
      List.get?_append (by rw [hlenpre]; omega)
    rw [this] at h0
    have hno : ∀ j' < 19, ("changed title from **".data).get? j' ≠ some '*' := by decide
    exact hno j h19 (by simpa using h0)
  rcases Nat.lt_or_ge j 21 with h21 | h21
  · interval_cases j
    · -- j = 19
      have e0 : u.get? 0 = some ' ' := by
        have := hg 2 (by decide); rw [hget 2 (by omega)] at this; simpa using this
      have e1 : u.get? 1 = some 't' := by
        have := hg 3 (by decide); rw [hget 3 (by omega)] at this; simpa using this
      have e2 : u.get? 2 = some 'o' := by
        have := hg 4 (by decide); rw [hget 4 (by omega)] at this; simpa using this
      have e3 : u.get? 3 = some ' ' := by
        have := hg 5 (by decide); rw [hget 5 (by omega)] at this; simpa using this
      have e4 : u.get? 4 = some '*' := by
        have := hg 6 (by decide); rw [hget 6 (by omega)] at this; simpa using this
      have hsepd : "** to **".data = ['*', '*', ' ', 't', 'o', ' ', '*', '*'] := rfl
      rcases old with _ | ⟨a, _ | ⟨b, _ | ⟨c, _ | ⟨d, _ | ⟨e, tl⟩⟩⟩⟩⟩
      · simp [hu, hsepd, List.get?] at e0
      · simp [hu, hsepd, List.get?] at e1
      · simp [hu, hsepd, List.get?] at e2
      · simp [hu, hsepd, List.get?] at e3
      · simp [hu, List.get?] at e0 e1 e2 e3
        exact hto (by simp [e0, e1, e2, e3])
      · simp [hu, List.get?] at e4
        exact hstar (by simp [e4])
    · -- j = 20
      have e0 : u.get? 0 = some '*' := by
        have := hg 1 (by decide); rw [hget 1 (by omega)] at this; simpa using this
      have e1 : u.get? 1 = some ' ' := by
        have := hg 2 (by decide); rw [hget 2 (by omega)] at this; simpa using this
      have hsepd : "** to **".data = ['*', '*', ' ', 't', 'o', ' ', '*', '*'] := rfl
      rcases old with _ | ⟨a, tl⟩
      · simp [hu, hsepd, List.get?] at e1
      · simp [hu, List.get?] at e0
        exact hstar (by simp [e0])
  · -- j ≥ 21 : inside old
    have h0 := hg 0 (by decide)
    rw [Nat.add_zero] at h0
    have : ("changed title from **".data ++ u).get? j = u.get? (j - 21) := by
      have := hget 0 (by omega); simpa using this
    rw [this] at h0
    have hk : j - 21 < old.length := by omega
    rw [hu, List.get?_append hk] at h0
    exact hstar (List.get?_mem h0)

theorem no_occ_tail (new : Chars) (hstar : '*' ∉ new) :
    ∀ j, ¬ ("** to **".data).isPrefixOf ((new ++ "**".data).drop j) := by
  intro j hpre
  have hlen : ("** to **".data).length ≤ ((new ++ "**".data).drop j).length :=
    (List.isPrefixOf_iff_prefix.mp hpre).length_le
  simp only [List.length_drop, List.length_append] at hlen
  have hlen8 : ("** to **".data).length = 8 := rfl
  have hlen2 : ("**".data).length = 2 := rfl
  rw [hlen8, hlen2] at hlen
  have hj : j < new.length := by omega
  have h0 := prefix_get hpre 0 (by decide)
  rw [Nat.add_zero, List.get?_append hj] at h0
  exact hstar (List.get?_mem h0)

theorem splitFirst_disjoint_none {p : Chars} (hp : p ≠ []) :
    ∀ t : Chars, (∀ c ∈ p, c ∉ t) → splitFirst p t = none := by
  intro t
  induction t with
  | nil => intro _; rfl
  | cons c cs ih =>
    intro hdisj
    rw [splitFirst, if_neg, ih (fun x hx hmem => hdisj x hx (List.mem_cons_of_mem c hmem))]
    intro hpre
    obtain ⟨a, as, rfl⟩ : ∃ a as, p = a :: as := by
      cases p with
      | nil => exact absurd rfl hp
      | cons a as => exact ⟨a, as, rfl⟩
    rw [List.isPrefixOf_iff_prefix] at hpre
    obtain ⟨t', ht'⟩ := hpre
    have ha : a = c := by
      have := congrArg (List.get? · 0) ht'
      simpa using this
    exact hdisj a (by simp) (ha ▸ List.mem_cons_self c cs)

theorem prefix_append_iff_of_disjoint {p x tail : Chars}
    (hdisj : ∀ c ∈ p, c ∉ tail) : p <+: x ++ tail ↔ p <+: x := by
  constructor
  · intro h
    rcases Nat.lt_or_ge x.length p.length with hlt | hge
    · exfalso
      have hgets := @prefix_get p (x ++ tail) 0
        (by rw [List.drop_zero, List.isPrefixOf_iff_prefix]; exact h)
      have hx := hgets x.length hlt
      cases tail with
      | nil =>
        have := h.length_le
        simp only [List.append_nil, List.length_append, List.length_nil] at this
        omega
      | cons t0 ts =>
        rw [Nat.zero_add, List.get?_append_right (le_refl _), Nat.sub_self] at hx
        simp only [List.get?] at hx
        exact hdisj t0 (List.get?_mem hx.symm) (by simp)
    · have heq : p = (x ++ tail).take p.length := List.prefix_iff_eq_take.mp h
      rw [List.take_append_of_le_length hge] at heq
      rw [heq]
      exact List.take_prefix _ _
  · intro h
    exact h.trans (List.prefix_append _ _)

theorem splitFirst_append_right {p tail : Chars} (hp : p ≠ [])
    (hdisj : ∀ c ∈ p, c ∉ tail) (x : Chars) :
    splitFirst p (x ++ tail) = (splitFirst p x).map (fun ba => (ba.1, ba.2 ++ tail)) := by
  induction x with
  | nil =>
    rw [List.nil_append, splitFirst_disjoint_none hp tail hdisj]
    rfl
  | cons c cs ih =>
    have hiff : p.isPrefixOf (c :: (cs ++ tail)) = p.isPrefixOf (c :: cs) := by
      rcases hb : p.isPrefixOf (c :: cs) with _ | _
      · rw [Bool.eq_false_iff]
        intro hcon
        rw [List.isPrefixOf_iff_prefix] at hcon
        have hcon' : p <+: (c :: cs) ++ tail := by rw [List.cons_append]; exact hcon
        have := (prefix_append_iff_of_disjoint hdisj).mp hcon'
        rw [← List.isPrefixOf_iff_prefix, hb] at this
        exact Bool.false_ne_true this
      · rw [List.isPrefixOf_iff_prefix] at hb
        have : p <+: (c :: cs) ++ tail := (prefix_append_iff_of_disjoint hdisj).mpr hb
        rw [List.cons_append] at this
        rw [← List.isPrefixOf_iff_prefix] at this
        exact this
    rcases hb : p.isPrefixOf (c :: cs) with _ | _
    · rw [List.cons_append, splitFirst, hiff, hb, if_neg (by simp), splitFirst,
        if_neg (by rw [hb]; simp), ih]
      cases splitFirst p cs with
      | none => rfl
      | some ba => rfl
    · have hple : p.length ≤ (c :: cs).length :=
        (List.isPrefixOf_iff_prefix.mp hb).length_le
      rw [List.cons_append, splitFirst, hiff, hb, if_pos rfl, splitFirst, if_pos hb]
      rw [← List.cons_append, List.drop_append_of_le_length hple]
      rfl

theorem replaceGoF_append {p r tail : Chars} (hp : p ≠ [])
    (hdisj : ∀ c ∈ p, c ∉ tail) :
    ∀ (f : Nat) (x : Chars), replaceGoF p r f (x ++ tail) = replaceGoF p r f x ++ tail := by
  intro f
  induction f with
  | zero => intro x; rfl
  | succ f ih =>
    intro x
    rw [replaceGoF, replaceGoF, splitFirst_append_right hp hdisj]
    cases h : splitFirst p x with
    | none => rfl
    | some ba =>
      obtain ⟨b, a⟩ := ba
      simp only [Option.map_some]
      show b ++ r ++ replaceGoF p r f (a ++ tail) = b ++ r ++ replaceGoF p r f a ++ tail
      rw [ih a]
      simp

theorem splitFirst_shrinks {p s b a : Chars} (hp : p ≠ []) (h : splitFirst p s = some (b, a)) :
    a.length < s.length := by
  have hd := splitFirst_decomp h
  have hlen : s.length = b.length + p.length + a.length := by
    rw [hd, List.length_append, List.length_append]
  have hplen : 0 < p.length := List.length_pos.mpr hp
  omega

theorem replaceGoF_fuel {p r : Chars} (hp : p ≠ []) :
    ∀ (f g : Nat) (x : Chars), x.length < f → x.length < g →
      replaceGoF p r f x = replaceGoF p r g x := by
  intro f
  induction f with
  | zero => intro g x hf; omega
  | succ f ih =>
    intro g x hf hg
    cases g with
    | zero => omega
    | succ g =>
      rw [replaceGoF, replaceGoF]
      cases h : splitFirst p x with
      | none => rfl
      | some ba =>
        obtain ⟨b, a⟩ := ba
        have ha := splitFirst_shrinks hp h
        show b ++ r ++ replaceGoF p r f a = b ++ r ++ replaceGoF p r g a
        rw [ih g a (by omega) (by omega)]

theorem replaceGo_append {p r tail : Chars} (hp : p ≠ [])
    (hdisj : ∀ c ∈ p, c ∉ tail) (x : Chars) :
    replaceGo (x ++ tail) p r = replaceGo x p r ++ tail := by
  rw [replaceGo, replaceGo, replaceGoF_append hp hdisj,
    replaceGoF_fuel hp ((x ++ tail).length + 1) (x.length + 1) x
      (by simp only [List.length_append]; omega) (by omega)]

theorem splitGoF_of_none {sep w : Chars} (h : splitFirst sep w = none) :
    ∀ f, splitGoF sep f w = [w] := by
  intro f
  cases f with
  | zero => rfl
  | succ f => rw [splitGoF, h]

theorem trimSuffixGo_append (y suf : Chars) : trimSuffixGo (y ++ suf) suf = y := by
  rw [trimSuffixGo, if_pos]
  · rw [List.length_append, Nat.add_sub_cancel, List.take_left]
  · rw [List.isSuffixOf_iff_suffix]
    exact List.suffix_append y suf

/-! ### C5 — title-diff extraction -/

/-- C5, counterexample: the claim states that, besides the insertion markers,
the deletion markers `{-` / `-}` are stripped from the part after `** to **`
(yielding `"b c"` below); the code only strips `{+` / `+}`, so the deletion
markers survive in the returned title. -/
theorem c5_title_extraction_cex :
    getNewTitle "changed title from **a** to **b\x7b- c-\x7d**" = some "b\x7b- c-\x7d" ∧
      ("b\x7b- c-\x7d" : String) ≠ "b c" := by
  constructor
  · decide
  · decide

/-- C5 (amended): for a note body of the shape
`changed title from **<old>** to **<new>**` (with `<old>`, `<new>` star-free
and `<old> ≠ " to "`, so that the separator occurs exactly once),
`getNewTitle` returns everything after `** to **` with the insertion markers
`{+` / `+}` stripped (keeping the enclosed text) and the trailing `**`
trimmed; deletion markers `{-` / `-}` are NOT stripped.  In particular
`changed title from **fourth issue** to **fourth issue{+ changed+}**` yields
`fourth issue changed` and
`changed title from **fourth issue{- changed-}** to **fourth issue**` yields
`fourth issue` (see the witness). -/
theorem c5_title_extraction (old new : Chars) (hso : '*' ∉ old) (hsn : '*' ∉ new)
    (hto : old ≠ " to ".data) :
    getNewTitle ⟨("changed title from **".data ++ old) ++ "** to **".data ++ (new ++ "**".data)⟩
      = some ⟨replaceGo (replaceGo new "\x7b+".data []) "+\x7d".data []⟩ := by
  have h1 : splitFirst "** to **".data
      ((("changed title from **".data ++ old) ++ "** to **".data ++ (new ++ "**".data)))
      = some ("changed title from **".data ++ old, new ++ "**".data) :=
    splitFirst_at (by decide) _ _ (no_early_occ old (new ++ "**".data) hso hto)
  have h2 : splitFirst "** to **".data (new ++ "**".data) = none :=
    splitFirst_none _ (no_occ_tail new hsn)
  have hsplit : splitGo (("changed title from **".data ++ old) ++ "** to **".data ++
      (new ++ "**".data)) "** to **".data
      = ["changed title from **".data ++ old, new ++ "**".data] := by
    rw [splitGo, splitGoF, h1]
    show ("changed title from **".data ++ old) ::
        splitGoF "** to **".data
          ((("changed title from **".data ++ old) ++ "** to **".data ++ (new ++ "**".data)).length)
          (new ++ "**".data) = _
    rw [splitGoF_of_none h2]
  rw [getNewTitle]
  simp only [hsplit]
  have hrep1 : replaceGo (new ++ "**".data) "\x7b+".data [] =
      replaceGo new "\x7b+".data [] ++ "**".data :=
    replaceGo_append (by decide) (by decide) new
  have hrep2 : replaceGo (replaceGo new "\x7b+".data [] ++ "**".data) "+\x7d".data [] =
      replaceGo (replaceGo new "\x7b+".data []) "+\x7d".data [] ++ "**".data :=
    replaceGo_append (by decide) (by decide) _
  rw [hrep1, hrep2, trimSuffixGo_append]

/-- C5, witness: the amended theorem instantiated at the spec's first example. -/
theorem c5_title_extraction_witness :
    ('*' ∉ "fourth issue".data) ∧ ('*' ∉ "fourth issue\x7b+ changed+\x7d".data) ∧
      ("fourth issue".data ≠ " to ".data) ∧
      getNewTitle "changed title from **fourth issue** to **fourth issue\x7b+ changed+\x7d**" =
        some "fourth issue changed" := by
  refine ⟨by decide, by decide, by decide, ?_⟩
  have h := c5_title_extraction "fourth issue".data "fourth issue\x7b+ changed+\x7d".data
    (by decide) (by decide) (by decide)
  have e1 : ("changed title from **fourth issue** to **fourth issue\x7b+ changed+\x7d**" : String)
      = ⟨("changed title from **".data ++ "fourth issue".data) ++ "** to **".data ++
          ("fourth issue\x7b+ changed+\x7d".data ++ "**".data)⟩ := by decide
  have e2 : (some (⟨replaceGo (replaceGo "fourth issue\x7b+ changed+\x7d".data "\x7b+".data [])
      "+\x7d".data []⟩ : String)) = some ("fourth issue changed" : String) := by decide
  rw [e1]
  exact h.trans e2

/-! ### C10 — title classification is partial -/

theorem getNewTitle_isSome (d : String) :
    (getNewTitle d).isSome = (splitFirst "** to **".data d.data).isSome := by
  rw [getNewTitle, splitGo]
  cases h : splitFirst "** to **".data d.data with
  | none =>
    rw [splitGoF_of_none h]
    rfl
  | some ba =>
    obtain ⟨b, a⟩ := ba
    rw [splitGoF, h]
    have hne : ∀ (f : Nat) (s : Chars), splitGoF "** to **".data f s ≠ [] := by
      intro f s
      cases f with
      | zero => simp [splitGoF]
      | succ f =>
        rw [splitGoF]
        cases splitFirst "** to **".data s with
        | none => simp
        | some ba2 => simp
    rcases hx : splitGoF "** to **".data d.data.length a with _ | ⟨x, xs⟩
    · exact absurd hx (hne _ _)
    · simp only [hx]
      rfl

/-- C10: for a system note whose body starts with `changed title from`,
`GetNoteType` reaches `getNewTitle`, whose `strings.Split(..)[1]` indexing
panics exactly when the separator `** to **` does not occur in the body:
classification terminates with a value iff the separator occurs. -/
theorem c10_title_classification_partial (n : GNote) (hsys : n.system = true)
    (hpre : hasPrefixGo "changed title from".data n.body.data = true) :
    (GetNoteType n).isSome = containsGo n.body.data "** to **".data := by
  have hlen : 18 ≤ n.body.data.length := by
    have := (List.isPrefixOf_iff_prefix.mp hpre).length_le
    simpa using this
  have hne : ∀ c : String, ¬ hasPrefixGo "changed title from".data c.data = true →
      n.body ≠ c := by
    intro c hc hbc
    exact hc (hbc ▸ hpre)
  have h1 : n.body ≠ "closed" := hne _ (by decide)
  have h2 : n.body ≠ "reopened" := hne _ (by decide)
  have h3 : n.body ≠ "changed the description" := hne _ (by decide)
  have h4 : n.body ≠ "locked this issue" := hne _ (by decide)
  have h5 : n.body ≠ "unlocked this issue" := hne _ (by decide)
  rw [GetNoteType, hsys]
  simp only [Bool.not_true, Bool.false_eq_true, if_false, h1, h2, h3, h4, h5, if_neg,
    not_false_eq_true, hpre, if_true]
  rw [containsGo, ← getNewTitle_isSome]
  cases getNewTitle n.body <;> rfl

/-- C10, witness: a system note with the title prefix and no `** to **`
separator; the classifier panics on it (`isSome = false = containsGo`). -/
theorem c10_title_classification_partial_witness :
    (⟨5, true, "changed title from **a** into **b**", 1⟩ : GNote).system = true ∧
      hasPrefixGo "changed title from".data
        ("changed title from **a** into **b**" : String).data = true ∧
      (GetNoteType ⟨5, true, "changed title from **a** into **b**", 1⟩).isSome =
        containsGo ("changed title from **a** into **b**" : String).data "** to **".data := by
  exact ⟨rfl, by decide,
    c10_title_classification_partial ⟨5, true, "changed title from **a** into **b**", 1⟩
      rfl (by decide)⟩

/-! ### C9 — NextIssue is not total on an empty listing -/

/-- C9: on a repository with zero issues the first `NextIssue` panics (the
unconditional `i.issue.Value()` indexes a nil cache at position `-1`), and in
general a `NextIssue` that returns false without error and without panicking
can only do so when the issue cache holds at least one element. -/
theorem c9_next_issue_partial :
    nextIssueC ⟨fun _ => .ok [] 0, fun _ _ => .ok [] 0, fun _ _ => .ok [] 0⟩
        ⟨none, issueReset, noteResetTo (-1), labelResetTo (-1)⟩ = none ∧
    ∀ (R : GRemote) (s s2 : CompIter) (f : Bool),
      nextIssueC R s = some (false, f, s2) → s2.err = none →
      ∃ c, s2.issue.cache = some c ∧ 1 ≤ c.length := by
  constructor
  · rfl
  · intro R s s2 f h herr
    simp only [nextIssueC] at h
    cases hserr : s.err with
    | some e =>
      rw [hserr] at h
      simp only [Option.some.injEq, Prod.mk.injEq] at h
      obtain ⟨-, -, hs2⟩ := h
      rw [← hs2, hserr] at herr
      simp at herr
    | none =>
      rw [hserr] at h
      set r := issueNext R.issues s.issue with hr
      cases hrerr : r.err with
      | some e =>
        rw [hrerr] at h
        simp only [Option.some.injEq, Prod.mk.injEq] at h
        obtain ⟨-, -, hs2⟩ := h
        rw [← hs2] at herr
        simp at herr
      | none =>
        rw [hrerr] at h
        cases hval : issueValue r.state with
        | none => rw [hval] at h; simp at h
        | some v =>
          rw [hval] at h
          simp only [Option.some.injEq, Prod.mk.injEq] at h
          obtain ⟨-, -, hs2⟩ := h
          rw [← hs2]
          show ∃ c, r.state.cache = some c ∧ 1 ≤ c.length
          rw [issueValue] at hval
          cases hc : r.state.cache with
          | none => rw [hc] at hval; simp at hval
          | some c =>
            rw [hc] at hval
            refine ⟨c, rfl, ?_⟩
            have hval2 : (if r.state.index < 0 then none
                else c.get? r.state.index.toNat) = some v := hval
            by_cases hneg : r.state.index < 0
            · rw [if_pos hneg] at hval2; simp at hval2
            · rw [if_neg hneg] at hval2
              obtain ⟨hlt, -⟩ := List.get?_eq_some.mp hval2
              omega

/-- C9, witness: a composite state whose issue cache holds one element; the
`NextIssue` after its last element returns false safely and the theorem
recovers the non-empty cache. -/
theorem c9_next_issue_partial_witness :
    nextIssueC ⟨fun _ => .ok [] 1, fun _ _ => .ok [] 0, fun _ _ => .ok [] 0⟩
        ⟨none, ⟨2, true, 0, some [⟨1, 7, "t", "d", "u"⟩]⟩, noteResetTo (-1), labelResetTo (-1)⟩ =
      some (false, false,
        ⟨none, ⟨2, true, 0, some [⟨1, 7, "t", "d", "u"⟩]⟩, noteResetTo 1, labelResetTo 1⟩) ∧
    (⟨none, ⟨2, true, 0, some [⟨1, 7, "t", "d", "u"⟩]⟩, noteResetTo 1, labelResetTo 1⟩ :
        CompIter).err = none ∧
    ∃ c, (⟨none, ⟨2, true, 0, some [⟨1, 7, "t", "d", "u"⟩]⟩, noteResetTo 1, labelResetTo 1⟩ :
        CompIter).issue.cache = some c ∧ 1 ≤ c.length := by
  refine ⟨rfl, rfl, ?_⟩
  exact c9_next_issue_partial.2 ⟨fun _ => .ok [] 1, fun _ _ => .ok [] 0, fun _ _ => .ok [] 0⟩
    ⟨none, ⟨2, true, 0, some [⟨1, 7, "t", "d", "u"⟩]⟩, noteResetTo (-1), labelResetTo (-1)⟩
    ⟨none, ⟨2, true, 0, some [⟨1, 7, "t", "d", "u"⟩]⟩, noteResetTo 1, labelResetTo 1⟩
    false rfl rfl

/-! ### C7 — sticky error halts all advancement -/

/-- C7: (1) once the composite iterator's sticky error is set, any sequence of
`NextIssue` / `NextNote` / `NextLabelEvent` calls returns false on every call,
performs zero page fetches, and leaves the whole state — including the
recorded error — unchanged; (2) whenever a child cursor's advance reports a
fetch error while no sticky error is recorded, the composite call returns
false and records exactly that error. -/
theorem c7_sticky_error :
    (∀ (R : GRemote) (cs : List CallK) (s : CompIter) (e : String), s.err = some e →
       runCalls R cs s = some (cs.map (fun _ => false), 0, s)) ∧
    (∀ (R : GRemote) (s : CompIter), s.err = none → ∀ e : String,
       ((issueNext R.issues s.issue).err = some e →
         nextIssueC R s = some (false, (issueNext R.issues s.issue).fetched,
           { s with issue := (issueNext R.issues s.issue).state, err := some e })) ∧
       ((noteNext R.notes s.note).err = some e →
         nextNoteC R s = some (false, (noteNext R.notes s.note).fetched,
           { s with note := (noteNext R.notes s.note).state, err := some e })) ∧
       ((labelNext R.labelEvents s.labelEvent).err = some e →
         nextLabelC R s = some (false, (labelNext R.labelEvents s.labelEvent).fetched,
           { s with labelEvent := (labelNext R.labelEvents s.labelEvent).state, err := some e }))) := by
  constructor
  · intro R cs
    induction cs with
    | nil => intro s e hserr; rfl
    | cons k ks ih =>
      intro s e hserr
      have hstep : doCall R k s = some (false, false, s) := by
        cases k <;> simp [doCall, nextIssueC, nextNoteC, nextLabelC, hserr]
      rw [runCalls, hstep]
      show (match runCalls R ks s with
        | none => none
        | some (bs, n, s3) => some (false :: bs, (if false then 1 else 0) + n, s3)) =
        some (List.map (fun x => false) (k :: ks), 0, s)
      rw [ih s e hserr]
      rfl
  · intro R s hserr e
    refine ⟨?_, ?_, ?_⟩
    · intro herr
      simp only [nextIssueC, hserr, herr]
    · intro herr
      simp only [nextNoteC, hserr, herr]
    · intro herr
      simp only [nextLabelC, hserr, herr]

/-- C7, witness: a composite state carrying sticky error `"boom"`; running all
three advance calls yields three `false`s, zero fetches and the unchanged
state. -/
theorem c7_sticky_error_witness :
    (⟨some "boom", issueReset, noteResetTo (-1), labelResetTo (-1)⟩ : CompIter).err =
        some "boom" ∧
    runCalls ⟨fun _ => .ok [] 0, fun _ _ => .ok [] 0, fun _ _ => .ok [] 0⟩
        [CallK.issue, CallK.note, CallK.labelEvent]
        ⟨some "boom", issueReset, noteResetTo (-1), labelResetTo (-1)⟩ =
      some ([false, false, false], 0,
        ⟨some "boom", issueReset, noteResetTo (-1), labelResetTo (-1)⟩) :=
  ⟨rfl, c7_sticky_error.1 ⟨fun _ => .ok [] 0, fun _ _ => .ok [] 0, fun _ _ => .ok [] 0⟩
    [CallK.issue, CallK.note, CallK.labelEvent]
    ⟨some "boom", issueReset, noteResetTo (-1), labelResetTo (-1)⟩ "boom" rfl⟩

/-! ### C6 — pagination -/

theorem lt_ceilDiv_iff {N P : Nat} (hP : 1 ≤ P) (q : Nat) :
    q < ceilDiv N P ↔ q * P < N := by
  rw [ceilDiv]
  have h1 : (q + 1) * P = q * P + P := by ring
  rw [Nat.lt_iff_add_one_le, Nat.le_div_iff_mul_le (by omega), h1]
  omega

theorem pageChunk_length (items : List GIssue) (P q : Nat) :
    (pageChunk items P q).length = min P (items.length - (q - 1) * P) := by
  simp [pageChunk]

theorem pageChunk_get (items : List GIssue) (P q r : Nat)
    (hr : r + 1 ≤ (pageChunk items P q).length) :
    (pageChunk items P q).get? r = items.get? ((q - 1) * P + r) := by
  have hrP : r < P := by
    have := pageChunk_length items P q
    omega
  rw [pageChunk, List.get?_take hrP, List.get?_drop]

theorem midState_stepA (items : List GIssue) (P q r : Nat)
    (hr : r + 2 ≤ (pageChunk items P q).length) :
    issueNext (listingFetch items P) (midState items P q r) =
      ⟨true, none, false, midState items P q (r + 1)⟩ := by
  rw [issueNext]
  show (if ((r : Nat) : Int) < ((pageChunk items P q).length : Int) - 1 then _ else _) = _
  rw [if_pos (by omega)]
  have hidx : ((r : Nat) : Int) + 1 = (((r + 1 : Nat)) : Int) := by push_cast; ring
  show (⟨true, none, false, { midState items P q r with index := ((r : Nat) : Int) + 1 }⟩ :
      StepRes IssueIter) = ⟨true, none, false, midState items P q (r + 1)⟩
  rw [hidx]
  rfl

theorem issueGetNext_ok (fetch : Nat → FetchRes GIssue) (s : IssueIter) (its : List GIssue)
    (total : Nat) (hlp : s.lastPage = false) (hfetch : fetch s.page = .ok its total)
    (hne : its.length ≠ 0) :
    issueGetNext fetch s = ⟨true, none, true, ⟨s.page + 1, decide (total = s.page), 0, some its⟩⟩ := by
  simp only [issueGetNext, hlp, hfetch, Bool.false_eq_true, if_false, if_neg hne]
  by_cases hT : total = s.page
  · simp [hT]
  · simp [hT, hlp]

theorem midState_stepB1 (items : List GIssue) (P q r : Nat)
    (hlast : ceilDiv items.length P = q)
    (hr : r + 1 = (pageChunk items P q).length) :
    issueNext (listingFetch items P) (midState items P q r) =
      ⟨false, none, false, midState items P q r⟩ := by
  rw [issueNext]
  show (if ((r : Nat) : Int) < ((pageChunk items P q).length : Int) - 1 then _ else _) = _
  rw [if_neg (by omega)]
  rw [issueGetNext, if_pos (by simp [midState, hlast])]

theorem midState_stepB2 (items : List GIssue) (P q r : Nat) (hP : 1 ≤ P)
    (hlast : q < ceilDiv items.length P)
    (hr : r + 1 = (pageChunk items P q).length) :
    issueNext (listingFetch items P) (midState items P q r) =
      ⟨true, none, true, midState items P (q + 1) 0⟩ := by
  have hqp : q * P < items.length := (lt_ceilDiv_iff hP q).mp hlast
  rw [issueNext]
  show (if ((r : Nat) : Int) < ((pageChunk items P q).length : Int) - 1 then _ else _) = _
  rw [if_neg (by omega)]
  have hfetch : listingFetch items P (midState items P q r).page =
      .ok (pageChunk items P (q + 1)) (ceilDiv items.length P) := by
    simp [listingFetch, midState, pageChunk]
  have hne : (pageChunk items P (q + 1)).length ≠ 0 := by
    rw [pageChunk_length]
    simp only [Nat.add_sub_cancel]
    omega
  rw [issueGetNext_ok (listingFetch items P) (midState items P q r)
    (pageChunk items P (q + 1)) (ceilDiv items.length P)
    (by simp [midState]; omega) hfetch hne]
  rfl

theorem midState_value (items : List GIssue) (P q r : Nat)
    (hr : r + 1 ≤ (pageChunk items P q).length) :
    issueValue (midState items P q r) = items.get? ((q - 1) * P + r) := by
  rw [issueValue]
  show (if ((r : Nat) : Int) < 0 then none else (pageChunk items P q).get? ((r : Nat) : Int).toNat) = _
  rw [if_neg (by omega), Int.toNat_natCast, pageChunk_get items P q r hr]

theorem c6_drain (items : List GIssue) (P : Nat) (hP : 1 ≤ P) :
    ∀ (fuel q r : Nat), 1 ≤ q → q ≤ ceilDiv items.length P →
      r + 1 ≤ (pageChunk items P q).length →
      items.length - ((q - 1) * P + r + 1) + 1 ≤ fuel →
      runNexts (listingFetch items P) fuel (midState items P q r) =
        ((items.drop ((q - 1) * P + r + 1)).map some,
         ceilDiv items.length P - q,
         midState items P (ceilDiv items.length P)
           ((pageChunk items P (ceilDiv items.length P)).length - 1)) := by
  intro fuel
  induction fuel with
  | zero => intro q r _ _ _ hfuel; omega
  | succ fuel ih =>
    intro q r hq hqT hr hfuel
    have hlen := pageChunk_length items P q
    have hqP : (q - 1) * P + P = q * P := by
      have h2 : q - 1 + 1 = q := by omega
      calc (q - 1) * P + P = (q - 1 + 1) * P := by ring
        _ = q * P := by rw [h2]
    have hk : (q - 1) * P + r < items.length := by
      rcases Nat.le_total P (items.length - (q - 1) * P) with hmin | hmin
      · rw [Nat.min_eq_left hmin] at hlen; omega
      · rw [Nat.min_eq_right hmin] at hlen; omega
    rcases Nat.lt_or_ge (r + 1) (pageChunk items P q).length with hmid | hend
    · -- case A: move within the cached page
      rw [runNexts]
      simp only [midState_stepA items P q r (by omega)]
      have hassoc : (q - 1) * P + (r + 1) = (q - 1) * P + r + 1 := by omega
      have hval := midState_value items P q (r + 1) (by omega)
      have hrec := ih q (r + 1) hq hqT (by omega) (by omega)
      rw [hrec, hval, hassoc]
      rw [List.get?_eq_get (by omega : (q - 1) * P + r + 1 < items.length)]
      rw [List.drop_eq_getElem_cons (by omega : (q - 1) * P + r + 1 < items.length)]
      simp
      rw [List.drop_eq_getElem_cons (by rw [List.length_map]; omega :
        (q - 1) * P + r + 1 < (List.map some items).length)]
      simp
    · -- case B: end of page
      have hrlen : r + 1 = (pageChunk items P q).length := by omega
      have hrmin : r + 1 = min P (items.length - (q - 1) * P) := hrlen.trans hlen
      rcases Nat.eq_or_lt_of_le hqT with hTq | hlt
      · -- B1: this was the last page
        rw [runNexts]
        simp only [midState_stepB1 items P q r hTq.symm hrlen]
        have hNle : items.length ≤ ceilDiv items.length P * P := by
          by_contra hcon
          have := (lt_ceilDiv_iff (N := items.length) hP (ceilDiv items.length P)).mpr (by omega)
          omega
        have hkN : (q - 1) * P + r + 1 = items.length := by
          rw [← hTq] at hNle
          rcases Nat.le_total P (items.length - (q - 1) * P) with hmin | hmin
          · rw [Nat.min_eq_left hmin] at hrmin; omega
          · rw [Nat.min_eq_right hmin] at hrmin; omega
        rw [hkN, List.drop_length, List.map_nil]
        have h0 : ceilDiv items.length P - q = 0 := by omega
        rw [h0]
        have hstate : midState items P (ceilDiv items.length P)
            ((pageChunk items P (ceilDiv items.length P)).length - 1) = midState items P q r := by
          rw [← hTq]
          have hro : (pageChunk items P q).length - 1 = r := by omega
          rw [hro]
        rw [hstate]
        rfl
      · -- B2: fetch the next page
        rw [runNexts]
        simp only [midState_stepB2 items P q r hP hlt hrlen]
        have hqp : q * P < items.length := (lt_ceilDiv_iff hP q).mp hlt
        have hchunkP : (pageChunk items P q).length = P := by
          rw [hlen, Nat.min_eq_left (by omega)]
        have hsimp1 : (q + 1 - 1) * P = q * P := by simp
        have hlen1 : (pageChunk items P (q + 1)).length = min P (items.length - q * P) := by
          rw [pageChunk_length, hsimp1]
        have hone : 0 + 1 ≤ (pageChunk items P (q + 1)).length := by
          rw [hlen1]
          exact le_min hP (by omega)
        have hkq : (q - 1) * P + r + 1 = q * P := by omega
        have hfuel2 : items.length - (q * P + 0 + 1) + 1 ≤ fuel := by omega
        have hrec := ih (q + 1) 0 (by omega) hlt hone (by rw [hsimp1]; exact hfuel2)
        rw [hrec]
        have hval := midState_value items P (q + 1) 0 hone
        rw [hsimp1] at hrec hval
        rw [hval, hkq]
        rw [List.get?_eq_get (by omega : q * P + 0 < items.length)]
        rw [show q * P + 0 + 1 = q * P + 1 from by omega]
        rw [List.drop_eq_getElem_cons (by omega : q * P < items.length)]
        have hT1 : 1 + (ceilDiv items.length P - (q + 1)) = ceilDiv items.length P - q := by
          omega
        simp [hT1]
        rw [List.drop_eq_getElem_cons (by rw [List.length_map]; omega :
          q * P < (List.map some items).length)]
        simp

/-- C6: for a listing of `N ≥ 1` items with page size `P ≥ 1` (each response
reporting `⌈N/P⌉` total pages), repeatedly calling `Next` yields exactly the
`N` items in order with exactly `⌈N/P⌉` page fetches; the call after the last
item returns false without fetching and leaves the state unchanged (so every
further call does the same); and a `Reset` re-initializes index, page,
exhausted flag and cache, after which the same fresh fetch sequence runs
again. -/
theorem c6_pagination (items : List GIssue) (P fuel : Nat)
    (hN : 1 ≤ items.length) (hP : 1 ≤ P) (hfuel : items.length + 1 ≤ fuel) :
    ∃ sF : IssueIter,
      runNexts (listingFetch items P) fuel issueReset =
        (items.map some, ceilDiv items.length P, sF) ∧
      issueNext (listingFetch items P) sF = ⟨false, none, false, sF⟩ ∧
      runNexts (listingFetch items P) fuel (issueResetFn sF) =
        (items.map some, ceilDiv items.length P, sF) := by
  have hT1 : 1 ≤ ceilDiv items.length P := by
    have := (lt_ceilDiv_iff (N := items.length) hP 0).mpr (by omega)
    omega
  have hTlast : (ceilDiv items.length P - 1) * P < items.length :=
    (lt_ceilDiv_iff (N := items.length) hP _).mp (by omega)
  have hlenT : 1 ≤ (pageChunk items P (ceilDiv items.length P)).length := by
    rw [pageChunk_length]
    exact le_min hP (by omega)
  have hlast : issueNext (listingFetch items P)
      (midState items P (ceilDiv items.length P)
        ((pageChunk items P (ceilDiv items.length P)).length - 1)) =
      ⟨false, none, false, midState items P (ceilDiv items.length P)
        ((pageChunk items P (ceilDiv items.length P)).length - 1)⟩ :=
    midState_stepB1 items P _ _ rfl (by omega)
  have hmain : runNexts (listingFetch items P) fuel issueReset =
      (items.map some, ceilDiv items.length P,
        midState items P (ceilDiv items.length P)
          ((pageChunk items P (ceilDiv items.length P)).length - 1)) := by
    cases fuel with
    | zero => omega
    | succ f =>
      have hone : (pageChunk items P 1).length ≠ 0 := by
        rw [pageChunk_length]
        have h1 : 1 ≤ min P (items.length - (1 - 1) * P) := le_min hP (by simp; omega)
        omega
      have hstep0 : issueNext (listingFetch items P) issueReset =
          ⟨true, none, true, midState items P 1 0⟩ := by
        rw [issueNext]
        show issueGetNext (listingFetch items P) issueReset = _
        rw [issueGetNext_ok (listingFetch items P) issueReset (pageChunk items P 1)
          (ceilDiv items.length P) rfl rfl hone]
        rfl
      rw [runNexts]
      simp only [hstep0]
      have hrec := c6_drain items P hP f 1 0 (by omega) hT1
        (by omega) (by simp; omega)
      rw [hrec]
      have hval := midState_value items P 1 0 (by omega)
      rw [hval]
      have hz : (1 - 1) * P + 0 = 0 := by simp
      rw [hz]
      rw [if_pos (by trivial), if_pos (by trivial)]
      have hTfetch : 1 + (ceilDiv items.length P - 1) = ceilDiv items.length P := by omega
      rw [List.get?_eq_get (by omega : 0 < items.length)]
      have hmap : List.map some items =
          (List.map some items).get ⟨0, by rw [List.length_map]; omega⟩ ::
            List.drop 1 (List.map some items) := by
        conv_lhs => rw [← List.drop_zero (List.map some items)]
        rw [List.drop_eq_getElem_cons (by rw [List.length_map]; omega)]
        simp [List.get_eq_getElem]
      conv_rhs => rw [hmap]
      simp [hTfetch]
  exact ⟨_, hmain, hlast, hmain⟩


/-- C6, witness: two items with page size one — two fetches, two yields. -/
theorem c6_pagination_witness :
    1 ≤ ([⟨1, 7, "a", "d", "u"⟩, ⟨2, 8, "b", "e", "v"⟩] : List GIssue).length ∧ 1 ≤ 1 ∧
      ([⟨1, 7, "a", "d", "u"⟩, ⟨2, 8, "b", "e", "v"⟩] : List GIssue).length + 1 ≤ 3 ∧
      ∃ sF : IssueIter,
        runNexts (listingFetch [⟨1, 7, "a", "d", "u"⟩, ⟨2, 8, "b", "e", "v"⟩] 1) 3 issueReset =
          (([⟨1, 7, "a", "d", "u"⟩, ⟨2, 8, "b", "e", "v"⟩] : List GIssue).map some,
           ceilDiv ([⟨1, 7, "a", "d", "u"⟩, ⟨2, 8, "b", "e", "v"⟩] : List GIssue).length 1, sF) ∧
        issueNext (listingFetch [⟨1, 7, "a", "d", "u"⟩, ⟨2, 8, "b", "e", "v"⟩] 1) sF =
          ⟨false, none, false, sF⟩ ∧
        runNexts (listingFetch [⟨1, 7, "a", "d", "u"⟩, ⟨2, 8, "b", "e", "v"⟩] 1) 3
            (issueResetFn sF) =
          (([⟨1, 7, "a", "d", "u"⟩, ⟨2, 8, "b", "e", "v"⟩] : List GIssue).map some,
           ceilDiv ([⟨1, 7, "a", "d", "u"⟩, ⟨2, 8, "b", "e", "v"⟩] : List GIssue).length 1, sF) :=
  ⟨by decide, by decide, by decide,
    c6_pagination [⟨1, 7, "a", "d", "u"⟩, ⟨2, 8, "b", "e", "v"⟩] 1 3
      (by decide) (by decide) (by decide)⟩


/-! ### C1 — import dedup matcher -/

/-- C1: the resolve matcher of `ensureIssue` compares the stored base-url
metadata against the project configuration entry and the stored project
metadata against the base-url configuration entry (swapped).  Consequently a
bug created by a first import pass — whose creation metadata is exactly the
claimed (origin, remote-id, remote-project, remote-base-url) tuple, as
`claimBugMatcher` confirms — is NOT matched by a second pass with the same
configuration, and `ensureIssue` creates a second LocalBug for the same
tuple, contradicting the claim. -/
theorem c1_import_dedup_bug :
    ensureIssue c1conf (fun s => s) [] c1issue 1 = some (c1bug, true, [c1bug]) ∧
    claimBugMatcher c1conf c1issue c1bug = true ∧
    bugMatcher c1conf c1issue c1bug = false ∧
    ensureIssue c1conf (fun s => s) [c1bug] c1issue 2 =
      some (c1bugDup, true, [c1bug, c1bugDup]) ∧
    getCreateMeta c1bugDup metaKeyGiteaId = getCreateMeta c1bug metaKeyGiteaId := by
  refine ⟨by decide, by decide, by decide, by decide, by decide⟩

/-! ### C2 — per-author credentials -/

/-- C2: `cacheAllClient` builds every cached client from `creds[0]`'s token
instead of the iterated credential's.  With two credentials (logins `alice`
and `bob`, tokens `tokA` and `tokB`), the identity resolved from `bob`'s
login is cached with `tokA`, not its own `tokB`, contradicting the claim that
each cached client is authenticated with the credential whose login resolves
to that identity. -/
theorem c2_credential_cache_bug :
    cacheAllClient [⟨"c1", some "alice", "tokA"⟩, ⟨"c2", some "bob", "tokB"⟩]
        (fun l => if l = "alice" then .found 1 else if l = "bob" then .found 2 else .notExist)
      = [(1, "tokA"), (2, "tokA")] ∧
    getIdentityClient [(1, "tokA"), (2, "tokA")] 2 = some "tokA" ∧
    ("tokA" : String) ≠ "tokB" := by
  refine ⟨by decide, by decide, by decide⟩

/-! ### C4 — export resume after creation -/

/-- C4: exporting a fresh local bug creates the remote issue and tags the
creation operation — but the recorded `gitea-base-url` comes from the
function's never-assigned `GiteaBaseUrl` variable, i.e. `""`, which differs
from the configured base URL.  The re-run therefore does not create a second
remote issue, yet it skips the bug with the "another Gitea instance"
mismatch notification, contradicting the claim that the recorded base-url
equals the configured target and the validation passes. -/
theorem c4_export_resume_bug :
    exportBug c4conf [(7, "tok")] c4remote c4bug0 =
      some ([.bugE, .nothingE "nothing has been exported"],
        [.createIssue "tok" "owner" "repo" "t" "m"], c4bug1, true) ∧
    getCreateMeta c4bug1 metaKeyGiteaBaseUrl = some (.str "") ∧
    (MetaVal.str "") ≠ .str c4conf.baseUrl ∧
    exportBug c4conf [(7, "tok")] c4remote c4bug1 =
      some ([.nothingE "skipping issue imported from another Gitea instance"], [], c4bug1, false) := by
  refine ⟨by decide, by decide, by decide, by decide⟩

/-! ### C8 — label replacement -/

theorem labelCallsOf_append (xs ys : List RCall) :
    labelCallsOf (xs ++ ys) = labelCallsOf xs ++ labelCallsOf ys := by
  induction xs with
  | nil => rfl
  | cons c cs ih =>
    cases c <;> simp [labelCallsOf, ih]

theorem walkOps_labels (clients : Clients) (R : WRemote) (gid cid : Nat) :
    ∀ (ops : List Op) (st stF : WalkSt),
      walkOps clients R gid cid ops st = some (stF, true) →
      labelCallsOf stF.calls =
        labelCallsOf st.calls ++ labelSetTrace st.labelSet (ops.filter (shouldProcess clients)) := by
  intro ops
  induction ops with
  | nil =>
    intro st stF h
    rw [walkOps] at h
    simp only [Option.some.injEq, Prod.mk.injEq] at h
    obtain ⟨rfl, -⟩ := h
    simp [labelSetTrace]
  | cons op ops ih =>
    intro st stF h
    rw [walkOps] at h
    cases hdata : op.data with
    | setMetadata t =>
      rw [hdata] at h
      have hsp : shouldProcess clients op = false := by
        simp [shouldProcess, isSetMetaOp, hdata]
      rw [List.filter_cons, if_neg (by simp [hsp])]
      exact ih st stF h
    | create ti ms =>
      rw [hdata] at h
      cases hmeta : metaLookup op.meta metaKeyGiteaId with
      | some v =>
        rw [hmeta] at h
        have hsp : shouldProcess clients op = false := by
          simp [shouldProcess, hmeta]
        rw [List.filter_cons, if_neg (by simp [hsp])]
        have := ih _ _ h
        simpa using this
      | none =>
        rw [hmeta] at h
        cases hcl : getIdentityClient clients op.author with
        | none =>
          rw [hcl] at h
          have hsp : shouldProcess clients op = false := by
            simp [shouldProcess, hcl]
          rw [List.filter_cons, if_neg (by simp [hsp])]
          exact ih st stF h
        | some tok =>
          rw [hcl] at h
          simp at h
    | addComment msg =>
      rw [hdata] at h
      cases hmeta : metaLookup op.meta metaKeyGiteaId with
      | some v =>
        rw [hmeta] at h
        have hsp : shouldProcess clients op = false := by
          simp [shouldProcess, hmeta]
        rw [List.filter_cons, if_neg (by simp [hsp])]
        have := ih _ _ h
        simpa using this
      | none =>
        rw [hmeta] at h
        cases hcl : getIdentityClient clients op.author with
        | none =>
          rw [hcl] at h
          have hsp : shouldProcess clients op = false := by
            simp [shouldProcess, hcl]
          rw [List.filter_cons, if_neg (by simp [hsp])]
          exact ih st stF h
        | some tok =>
          rw [hcl] at h
          have hsp : shouldProcess clients op = true := by
            simp [shouldProcess, isSetMetaOp, hdata, hmeta, hcl]
          rw [List.filter_cons, if_pos (by simp [hsp])]
          have hrec := ih _ _ h
          rw [hrec]
          simp [markExported, labelCallsOf_append, labelCallsOf, labelSetTrace, hdata]
    | setStatus stv =>
      rw [hdata] at h
      cases hmeta : metaLookup op.meta metaKeyGiteaId with
      | some v =>
        rw [hmeta] at h
        have hsp : shouldProcess clients op = false := by
          simp [shouldProcess, hmeta]
        rw [List.filter_cons, if_neg (by simp [hsp])]
        have := ih _ _ h
        simpa using this
      | none =>
        rw [hmeta] at h
        cases hcl : getIdentityClient clients op.author with
        | none =>
          rw [hcl] at h
          have hsp : shouldProcess clients op = false := by
            simp [shouldProcess, hcl]
          rw [List.filter_cons, if_neg (by simp [hsp])]
          exact ih st stF h
        | some tok =>
          rw [hcl] at h
          have hsp : shouldProcess clients op = true := by
            simp [shouldProcess, isSetMetaOp, hdata, hmeta, hcl]
          rw [List.filter_cons, if_pos (by simp [hsp])]
          have hrec := ih _ _ h
          rw [hrec]
          simp [markExported, labelCallsOf_append, labelCallsOf, labelSetTrace, hdata]
    | setTitle ti =>
      rw [hdata] at h
      cases hmeta : metaLookup op.meta metaKeyGiteaId with
      | some v =>
        rw [hmeta] at h
        have hsp : shouldProcess clients op = false := by
          simp [shouldProcess, hmeta]
        rw [List.filter_cons, if_neg (by simp [hsp])]
        have := ih _ _ h
        simpa using this
      | none =>
        rw [hmeta] at h
        cases hcl : getIdentityClient clients op.author with
        | none =>
          rw [hcl] at h
          have hsp : shouldProcess clients op = false := by
            simp [shouldProcess, hcl]
          rw [List.filter_cons, if_neg (by simp [hsp])]
          exact ih st stF h
        | some tok =>
          rw [hcl] at h
          have hsp : shouldProcess clients op = true := by
            simp [shouldProcess, isSetMetaOp, hdata, hmeta, hcl]
          rw [List.filter_cons, if_pos (by simp [hsp])]
          have hrec := ih _ _ h
          rw [hrec]
          simp [markExported, labelCallsOf_append, labelCallsOf, labelSetTrace, hdata]
    | editComment tid msg =>
      rw [hdata] at h
      cases hmeta : metaLookup op.meta metaKeyGiteaId with
      | some v =>
        rw [hmeta] at h
        have hsp : shouldProcess clients op = false := by
          simp [shouldProcess, hmeta]
        rw [List.filter_cons, if_neg (by simp [hsp])]
        have := ih _ _ h
        simpa using this
      | none =>
        rw [hmeta] at h
        cases hcl : getIdentityClient clients op.author with
        | none =>
          rw [hcl] at h
          have hsp : shouldProcess clients op = false := by
            simp [shouldProcess, hcl]
          rw [List.filter_cons, if_neg (by simp [hsp])]
          exact ih st stF h
        | some tok =>
          rw [hcl] at h
          have hsp : shouldProcess clients op = true := by
            simp [shouldProcess, isSetMetaOp, hdata, hmeta, hcl]
          rw [List.filter_cons, if_pos (by simp [hsp])]
          have h2 : (if tid = cid then
                walkOps clients R gid cid ops
                  (markExported { st with
                    calls := st.calls ++ [RCall.updateBody tok gid msg],
                    events := st.events ++ [ERes.commentEditionE] } op.id gid)
              else
                match (st.cachedIds.find? (fun p => p.1 == tid)).map (fun p => p.2) with
                | none =>
                  some ({ st with events := st.events ++ [ERes.errorE "comment id not found"] },
                    false)
                | some cid2 =>
                  match mAtoi cid2 with
                  | none =>
                    some ({ st with
                      events := st.events ++ [ERes.errorE "unexpected comment id format"] }, false)
                  | some cidN =>
                    walkOps clients R gid cid ops
                      (markExported { st with
                        calls := st.calls ++ [RCall.editComment tok gid cidN msg],
                        events := st.events ++ [ERes.commentEditionE] } op.id cidN)) =
              some (stF, true) := h
          by_cases htid : tid = cid
          · rw [if_pos htid] at h2
            have hrec := ih _ _ h2
            rw [hrec]
            simp [markExported, labelCallsOf_append, labelCallsOf, labelSetTrace, hdata]
          · rw [if_neg htid] at h2
            cases hfind : (st.cachedIds.find? (fun p => p.1 == tid)).map (fun p => p.2) with
            | none =>
              rw [hfind] at h2
              simp at h2
            | some cid2 =>
              rw [hfind] at h2
              have h3 : (match mAtoi cid2 with
                  | none =>
                    some ({ st with
                      events := st.events ++ [ERes.errorE "unexpected comment id format"] }, false)
                  | some cidN =>
                    walkOps clients R gid cid ops
                      (markExported { st with
                        calls := st.calls ++ [RCall.editComment tok gid cidN msg],
                        events := st.events ++ [ERes.commentEditionE] } op.id cidN)) =
                  some (stF, true) := h2
              cases hatoi : mAtoi cid2 with
              | none =>
                rw [hatoi] at h3
                simp at h3
              | some cidN =>
                rw [hatoi] at h3
                have hrec := ih _ _ h3
                rw [hrec]
                simp [markExported, labelCallsOf_append, labelCallsOf, labelSetTrace, hdata]
    | labelChange added removed =>
      rw [hdata] at h
      cases hmeta : metaLookup op.meta metaKeyGiteaId with
      | some v =>
        rw [hmeta] at h
        have hsp : shouldProcess clients op = false := by
          simp [shouldProcess, hmeta]
        rw [List.filter_cons, if_neg (by simp [hsp])]
        have := ih _ _ h
        simpa using this
      | none =>
        rw [hmeta] at h
        cases hcl : getIdentityClient clients op.author with
        | none =>
          rw [hcl] at h
          have hsp : shouldProcess clients op = false := by
            simp [shouldProcess, hcl]
          rw [List.filter_cons, if_neg (by simp [hsp])]
          exact ih st stF h
        | some tok =>
          rw [hcl] at h
          have hsp : shouldProcess clients op = true := by
            simp [shouldProcess, isSetMetaOp, hdata, hmeta, hcl]
          rw [List.filter_cons, if_pos (by simp [hsp])]
          have hrec := ih _ _ h
          rw [hrec]
          simp only [labelSetTrace, hdata, markExported]
          simp [labelCallsOf_append, labelCallsOf]

/-- C8: whenever `exportBug` completes its walk, the label payloads of its
remote calls are exactly the running label set after each dispatched
`LabelChange` operation — each label-update call pushes the entire current
set, starting from the empty set, across the whole walk. -/
theorem c8_label_replacement (conf : GConf) (clients : Clients) (R : WRemote) (b : GBug)
    (evs : List ERes) (calls : List RCall) (b2 : GBug)
    (h : exportBug conf clients R b = some (evs, calls, b2, true)) :
    labelCallsOf calls = labelSetTrace ∅ (b.rest.filter (shouldProcess clients)) := by
  simp only [exportBug] at h
  split at h
  · simp at h
  · split at h
    · split at h
      · split at h
        · simp at h
        · split at h
          · simp at h
          · split at h
            · simp at h
            · split at h
              · simp at h
              · rename_i hwalk
                split at h
                · simp at h
                · rename_i st finished hw
                  simp only [Option.some.injEq, Prod.mk.injEq] at h
                  obtain ⟨-, hcalls, -, hfin⟩ := h
                  subst hfin
                  rw [← hcalls]
                  have := walkOps_labels clients R _ _ _ _ _ hw
                  simpa [labelCallsOf] using this
      · split at h
        · simp at h
        · split at h
          · simp at h
          · split at h
            · simp at h
            · split at h
              · simp at h
              · rename_i st finished hw
                simp only [Option.some.injEq, Prod.mk.injEq] at h
                obtain ⟨-, hcalls, -, hfin⟩ := h
                subst hfin
                rw [← hcalls]
                have := walkOps_labels clients R _ _ _ _ _ hw
                simpa [labelCallsOf] using this
    · split at h
      · simp at h
      · split at h
        · split at h
          · simp at h
          · rename_i st finished hw
            simp only [Option.some.injEq, Prod.mk.injEq] at h
            obtain ⟨-, hcalls, -, hfin⟩ := h
            subst hfin
            rw [← hcalls]
            have := walkOps_labels clients R _ _ _ _ _ hw
            simpa [labelCallsOf] using this
        · simp at h


/-- C8, witness: adds `{A, B}` then remove `{A}` — the second label-update
call carries exactly `{B}`. -/
theorem c8_label_replacement_witness :
    exportBug c8conf c8clients c8remote c8bug = some (c8events, c8calls, c8bugExp, true) ∧
    labelCallsOf c8calls = labelSetTrace ∅ (c8bug.rest.filter (shouldProcess c8clients)) ∧
    labelCallsOf c8calls = [{"A", "B"}, {"B"}] := by
  have h1 : exportBug c8conf c8clients c8remote c8bug =
      some (c8events, c8calls, c8bugExp, true) := by rfl
  refine ⟨h1, c8_label_replacement c8conf c8clients c8remote c8bug c8events c8calls c8bugExp h1, ?_⟩
  have hAB : (insert "B" (insert "A" (∅ : Finset String))) = {"A", "B"} := by
    ext a
    simp only [Finset.mem_insert, Finset.mem_singleton, Finset.not_mem_empty, or_false]
    constructor
    · rintro (hB | hA)
      · exact Or.inr hB
      · exact Or.inl hA
    · rintro (hA | hB)
      · exact Or.inr hA
      · exact Or.inl hB
  have hB : ((insert "B" (insert "A" (∅ : Finset String))).erase "A") = {"B"} := by
    ext a
    simp only [Finset.mem_erase, Finset.mem_insert, Finset.mem_singleton,
      Finset.not_mem_empty, or_false]
    constructor
    · rintro ⟨hne, hB | hA⟩
      · exact hB
      · exact absurd hA hne
    · intro hB
      refine ⟨?_, Or.inl hB⟩
      rw [hB]
      decide
  rw [c8calls, labelCallsOf, labelCallsOf, labelCallsOf, hB, hAB]

/-! ### C3 — round trip -/

/-- C3, counterexample: the remote note's id equals the issue's IID, so the
import's dedup lookup resolves the note against the creation operation's tag;
the comment body differs from the issue description, so `ensureNote` appends
an `EditComment` operation with nil metadata.  Exporting the freshly imported
bug back to the same target then issues a remote write (an issue-body
update), contradicting the claim that every fresh import round-trips with
zero remote writes. -/
theorem c3_roundtrip_cex :
    importIssue c3conf (fun s => s) c3issue [c3note] [] = some c3bug ∧
    exportBug c3conf c3clients c3remote c3bug =
      some ([.commentEditionE], [.updateBody "tok" 1 "other"], c3bugExp, true) ∧
    ([RCall.updateBody "tok" 1 "other"] : List RCall) ≠ [] := by
  refine ⟨by decide, by decide, by decide⟩

theorem resolve_noMatch (b : GBug) (v : MetaVal)
    (hc : metaLookup b.createOp.meta metaKeyGiteaId ≠ some v)
    (hr : ∀ o ∈ b.rest, metaLookup o.meta metaKeyGiteaId ≠ some v) :
    resolveOpWithMeta b metaKeyGiteaId v = .noMatch := by
  rw [resolveOpWithMeta]
  have hnil : (bugOps b).filter (fun o => metaLookup o.meta metaKeyGiteaId == some v) = [] := by
    rw [List.filter_eq_nil]
    intro o ho
    rw [bugOps, List.mem_cons] at ho
    rcases ho with rfl | ho
    · simp [hc]
    · simp [hr o ho]
  rw [hnil]

theorem ensureNote_step (clean : String → String) (issue : GIssue) (b : GBug) (n : GNote)
    (fid : Nat) (b' : GBug)
    (hres : resolveOpWithMeta b metaKeyGiteaId (parseID n.id) = .noMatch)
    (h : ensureNote clean issue b n fid = some b') :
    b'.createOp = b.createOp ∧
    (b'.rest = b.rest ∨ ∃ o, b'.rest = b.rest ++ [o] ∧
      metaLookup o.meta metaKeyGiteaId = some (parseID n.id)) := by
  simp only [ensureNote, hres] at h
  cases hnt : GetNoteType n with
  | none => rw [hnt] at h; simp at h
  | some p =>
    obtain ⟨nt, body⟩ := p
    rw [hnt] at h
    cases nt with
    | NOTE_CLOSED =>
      have h2 : some (appendOp b ⟨fid, n.author, .setStatus .closedStatus,
          [(metaKeyGiteaId, parseID n.id)]⟩) = some b' := h
      obtain rfl := Option.some.inj h2
      exact ⟨rfl, Or.inr ⟨_, rfl, rfl⟩⟩
    | NOTE_REOPENED =>
      have h2 : some (appendOp b ⟨fid, n.author, .setStatus .openStatus,
          [(metaKeyGiteaId, parseID n.id)]⟩) = some b' := h
      obtain rfl := Option.some.inj h2
      exact ⟨rfl, Or.inr ⟨_, rfl, rfl⟩⟩
    | NOTE_DESCRIPTION_CHANGED =>
      cases hsc : snapComments b with
      | nil => rw [hsc] at h; simp at h
      | cons fc fcs =>
        rw [hsc] at h
        have h2 : (if (True ∧ issue.description ≠ fc.2) then
            some (appendOp b ⟨fid, n.author, .editComment fc.1 issue.description,
              [(metaKeyGiteaId, parseID n.id)]⟩)
          else some b) = some b' := h
        by_cases hd : issue.description ≠ fc.2
        · rw [if_pos ⟨trivial, hd⟩] at h2
          obtain rfl := Option.some.inj h2
          exact ⟨rfl, Or.inr ⟨_, rfl, rfl⟩⟩
        · rw [if_neg (fun hc => hd hc.2)] at h2
          obtain rfl := Option.some.inj h2
          exact ⟨rfl, Or.inl rfl⟩
    | NOTE_COMMENT =>
      have h2 : some (appendOp b ⟨fid, n.author, .addComment (clean body),
          [(metaKeyGiteaId, parseID n.id)]⟩) = some b' := h
      obtain rfl := Option.some.inj h2
      exact ⟨rfl, Or.inr ⟨_, rfl, rfl⟩⟩
    | NOTE_TITLE_CHANGED =>
      have h2 : some (appendOp b ⟨fid, n.author, .setTitle body,
          [(metaKeyGiteaId, parseID n.id)]⟩) = some b' := h
      obtain rfl := Option.some.inj h2
      exact ⟨rfl, Or.inr ⟨_, rfl, rfl⟩⟩
    | NOTE_LOCKED =>
      obtain rfl := Option.some.inj (show some b = some b' from h)
      exact ⟨rfl, Or.inl rfl⟩
    | NOTE_UNLOCKED =>
      obtain rfl := Option.some.inj (show some b = some b' from h)
      exact ⟨rfl, Or.inl rfl⟩
    | NOTE_CHANGED_DUEDATE =>
      obtain rfl := Option.some.inj (show some b = some b' from h)
      exact ⟨rfl, Or.inl rfl⟩
    | NOTE_REMOVED_DUEDATE =>
      obtain rfl := Option.some.inj (show some b = some b' from h)
      exact ⟨rfl, Or.inl rfl⟩
    | NOTE_ASSIGNED =>
      obtain rfl := Option.some.inj (show some b = some b' from h)
      exact ⟨rfl, Or.inl rfl⟩
    | NOTE_UNASSIGNED =>
      obtain rfl := Option.some.inj (show some b = some b' from h)
      exact ⟨rfl, Or.inl rfl⟩
    | NOTE_CHANGED_MILESTONE =>
      obtain rfl := Option.some.inj (show some b = some b' from h)
      exact ⟨rfl, Or.inl rfl⟩
    | NOTE_REMOVED_MILESTONE =>
      obtain rfl := Option.some.inj (show some b = some b' from h)
      exact ⟨rfl, Or.inl rfl⟩
    | NOTE_MENTIONED_IN_ISSUE =>
      obtain rfl := Option.some.inj (show some b = some b' from h)
      exact ⟨rfl, Or.inl rfl⟩
    | NOTE_MENTIONED_IN_MERGE_REQUEST =>
      obtain rfl := Option.some.inj (show some b = some b' from h)
      exact ⟨rfl, Or.inl rfl⟩
    | NOTE_UNKNOWN =>
      obtain rfl := Option.some.inj (show some b = some b' from h)
      exact ⟨rfl, Or.inl rfl⟩

theorem importNotes_tagged (clean : String → String) (issue : GIssue) :
    ∀ (ns : List GNote) (b : GBug) (fid : Nat) (b2 : GBug) (fid2 : Nat),
      List.Pairwise (fun a c => a.id ≠ c.id) ns →
      (∀ n ∈ ns, n.id ≠ issue.iid) →
      metaLookup b.createOp.meta metaKeyGiteaId = some (.nat issue.iid) →
      (∀ o ∈ b.rest, ∃ i, metaLookup o.meta metaKeyGiteaId = some (.nat i) ∧
        ∀ n ∈ ns, i ≠ n.id) →
      importNotes clean issue ns b fid = some (b2, fid2) →
      b2.createOp = b.createOp ∧
      ∀ o ∈ b2.rest, ∃ i, metaLookup o.meta metaKeyGiteaId = some (.nat i) := by
  intro ns
  induction ns with
  | nil =>
    intro b fid b2 fid2 _ _ _ hinv h
    rw [importNotes] at h
    simp only [Option.some.injEq, Prod.mk.injEq] at h
    obtain ⟨rfl, -⟩ := h
    exact ⟨rfl, fun o ho => (hinv o ho).imp (fun i hi => hi.1)⟩
  | cons n ns ih =>
    intro b fid b2 fid2 hpair hiid hcreate hinv h
    rw [importNotes] at h
    cases hen : ensureNote clean issue b n fid with
    | none => rw [hen] at h; simp at h
    | some bb =>
      rw [hen] at h
      rw [List.pairwise_cons] at hpair
      obtain ⟨hhead, htail⟩ := hpair
      have hres : resolveOpWithMeta b metaKeyGiteaId (parseID n.id) = .noMatch := by
        apply resolve_noMatch
        · rw [hcreate]
          have : n.id ≠ issue.iid := hiid n (List.mem_cons_self n ns)
          simp [parseID]
          omega
        · intro o ho
          obtain ⟨i, hi, hall⟩ := hinv o ho
          rw [hi]
          have : i ≠ n.id := hall n (List.mem_cons_self n ns)
          simp [parseID]
          omega
      obtain ⟨hcr, hext⟩ := ensureNote_step clean issue b n fid bb hres hen
      have hres2 := ih bb (fid + 1) b2 fid2 htail
        (fun m hm => hiid m (List.mem_cons_of_mem n hm))
        (by rw [hcr]; exact hcreate)
        (by
          intro o ho
          rcases hext with hsame | ⟨onew, hrest, hmeta⟩
          · rw [hsame] at ho
            obtain ⟨i, hi, hall⟩ := hinv o ho
            exact ⟨i, hi, fun m hm => hall m (List.mem_cons_of_mem n hm)⟩
          · rw [hrest, List.mem_append] at ho
            rcases ho with ho | ho
            · obtain ⟨i, hi, hall⟩ := hinv o ho
              exact ⟨i, hi, fun m hm => hall m (List.mem_cons_of_mem n hm)⟩
            · rw [List.mem_singleton] at ho
              subst ho
              exact ⟨n.id, hmeta, fun m hm => hhead m hm⟩)
        h
      exact ⟨hres2.1.trans hcr, hres2.2⟩

theorem ensureLabelEvent_step (b : GBug) (ev : GLabelEvent) (fid : Nat) (b' : GBug)
    (h : ensureLabelEvent b ev fid = some b') :
    b'.createOp = b.createOp ∧
    ∀ o ∈ b'.rest, o ∈ b.rest ∨ metaLookup o.meta metaKeyGiteaId ≠ none := by
  rw [ensureLabelEvent] at h
  cases hres : resolveOpWithMeta b metaKeyGiteaId (parseID ev.id) with
  | found i =>
    rw [hres] at h
    obtain rfl := Option.some.inj (show some b = some b' from h)
    exact ⟨rfl, fun o ho => Or.inl ho⟩
  | multiple => rw [hres] at h; simp at h
  | noMatch =>
    rw [hres] at h
    by_cases hadd : ev.action = "add"
    · have h2 : some (appendOp b ⟨fid, ev.user, .labelChange [ev.labelName] [],
          [(metaKeyGiteaId, parseID ev.id)]⟩) = some b' := by
        rw [← h]
        show _ = (if ev.action = "add" then _ else _)
        rw [if_pos hadd]
      obtain rfl := Option.some.inj h2
      refine ⟨rfl, fun o ho => ?_⟩
      rw [show (appendOp b _).rest = b.rest ++ [_] from rfl, List.mem_append] at ho
      rcases ho with ho | ho
      · exact Or.inl ho
      · rw [List.mem_singleton] at ho
        subst ho
        exact Or.inr (by simp [metaLookup])
    · by_cases hrem : ev.action = "remove"
      · have h2 : some (appendOp b ⟨fid, ev.user, .labelChange [] [ev.labelName],
            [(metaKeyGiteaId, parseID ev.id)]⟩) = some b' := by
          rw [← h]
          show _ = (if ev.action = "add" then _ else if ev.action = "remove" then _ else _)
          rw [if_neg hadd, if_pos hrem]
        obtain rfl := Option.some.inj h2
        refine ⟨rfl, fun o ho => ?_⟩
        rw [show (appendOp b _).rest = b.rest ++ [_] from rfl, List.mem_append] at ho
        rcases ho with ho | ho
        · exact Or.inl ho
        · rw [List.mem_singleton] at ho
          subst ho
          exact Or.inr (by simp [metaLookup])
      · have h2 : (none : Option GBug) = some b' := by
          rw [← h]
          show _ = (if ev.action = "add" then _ else if ev.action = "remove" then _ else _)
          rw [if_neg hadd, if_neg hrem]
        simp at h2

theorem importLabelEvents_tagged :
    ∀ (evs : List GLabelEvent) (b : GBug) (fid : Nat) (b2 : GBug) (fid2 : Nat),
      importLabelEvents evs b fid = some (b2, fid2) →
      b2.createOp = b.createOp ∧
      ∀ o ∈ b2.rest, o ∈ b.rest ∨ metaLookup o.meta metaKeyGiteaId ≠ none := by
  intro evs
  induction evs with
  | nil =>
    intro b fid b2 fid2 h
    rw [importLabelEvents] at h
    simp only [Option.some.injEq, Prod.mk.injEq] at h
    obtain ⟨rfl, -⟩ := h
    exact ⟨rfl, fun o ho => Or.inl ho⟩
  | cons ev evs ih =>
    intro b fid b2 fid2 h
    rw [importLabelEvents] at h
    cases hle : ensureLabelEvent b ev fid with
    | none => rw [hle] at h; simp at h
    | some bb =>
      rw [hle] at h
      obtain ⟨hcr1, hmem1⟩ := ensureLabelEvent_step b ev fid bb hle
      obtain ⟨hcr2, hmem2⟩ := ih bb (fid + 1) b2 fid2 h
      refine ⟨hcr2.trans hcr1, fun o ho => ?_⟩
      rcases hmem2 o ho with ho2 | ho2
      · exact hmem1 o ho2
      · exact Or.inr ho2

theorem walkOps_all_tagged (clients : Clients) (R : WRemote) (gid cid : Nat) :
    ∀ (ops : List Op) (st : WalkSt),
      (∀ o ∈ ops, isSetMetaOp o = true ∨ metaLookup o.meta metaKeyGiteaId ≠ none) →
      ∃ stF, walkOps clients R gid cid ops st = some (stF, true) ∧
        stF.calls = st.calls ∧ stF.events = st.events ∧ stF.updated = st.updated := by
  intro ops
  induction ops with
  | nil => intro st _; exact ⟨st, rfl, rfl, rfl, rfl⟩
  | cons op ops ih =>
    intro st hall
    have hop := hall op (List.mem_cons_self op ops)
    have hrest := fun o ho => hall o (List.mem_cons_of_mem op ho)
    cases hdata : op.data with
    | setMetadata t =>
      obtain ⟨stF, hF, hc, he, hu⟩ := ih st hrest
      refine ⟨stF, ?_, hc, he, hu⟩
      rw [walkOps, hdata]
      exact hF
    | create ti ms =>
      have hne : metaLookup op.meta metaKeyGiteaId ≠ none := by
        rcases hop with h1 | h2
        · simp [isSetMetaOp, hdata] at h1
        · exact h2
      obtain ⟨v, hv⟩ : ∃ v, metaLookup op.meta metaKeyGiteaId = some v := by
        cases hx : metaLookup op.meta metaKeyGiteaId
        · exact absurd hx hne
        · exact ⟨_, rfl⟩
      obtain ⟨stF, hF, hc, he, hu⟩ := ih { st with cachedIds := st.cachedIds ++ [(op.id, v)] } hrest
      refine ⟨stF, ?_, hc, he, hu⟩
      rw [walkOps, hdata, hv]
      exact hF
    | addComment ms =>
      have hne : metaLookup op.meta metaKeyGiteaId ≠ none := by
        rcases hop with h1 | h2
        · simp [isSetMetaOp, hdata] at h1
        · exact h2
      obtain ⟨v, hv⟩ : ∃ v, metaLookup op.meta metaKeyGiteaId = some v := by
        cases hx : metaLookup op.meta metaKeyGiteaId
        · exact absurd hx hne
        · exact ⟨_, rfl⟩
      obtain ⟨stF, hF, hc, he, hu⟩ := ih { st with cachedIds := st.cachedIds ++ [(op.id, v)] } hrest
      refine ⟨stF, ?_, hc, he, hu⟩
      rw [walkOps, hdata, hv]
      exact hF
    | editComment tid ms =>
      have hne : metaLookup op.meta metaKeyGiteaId ≠ none := by
        rcases hop with h1 | h2
        · simp [isSetMetaOp, hdata] at h1
        · exact h2
      obtain ⟨v, hv⟩ : ∃ v, metaLookup op.meta metaKeyGiteaId = some v := by
        cases hx : metaLookup op.meta metaKeyGiteaId
        · exact absurd hx hne
        · exact ⟨_, rfl⟩
      obtain ⟨stF, hF, hc, he, hu⟩ := ih { st with cachedIds := st.cachedIds ++ [(op.id, v)] } hrest
      refine ⟨stF, ?_, hc, he, hu⟩
      rw [walkOps, hdata, hv]
      exact hF
    | setStatus sv =>
      have hne : metaLookup op.meta metaKeyGiteaId ≠ none := by
        rcases hop with h1 | h2
        · simp [isSetMetaOp, hdata] at h1
        · exact h2
      obtain ⟨v, hv⟩ : ∃ v, metaLookup op.meta metaKeyGiteaId = some v := by
        cases hx : metaLookup op.meta metaKeyGiteaId
        · exact absurd hx hne
        · exact ⟨_, rfl⟩
      obtain ⟨stF, hF, hc, he, hu⟩ := ih { st with cachedIds := st.cachedIds ++ [(op.id, v)] } hrest
      refine ⟨stF, ?_, hc, he, hu⟩
      rw [walkOps, hdata, hv]
      exact hF
    | setTitle ti =>
      have hne : metaLookup op.meta metaKeyGiteaId ≠ none := by
        rcases hop with h1 | h2
        · simp [isSetMetaOp, hdata] at h1
        · exact h2
      obtain ⟨v, hv⟩ : ∃ v, metaLookup op.meta metaKeyGiteaId = some v := by
        cases hx : metaLookup op.meta metaKeyGiteaId
        · exact absurd hx hne
        · exact ⟨_, rfl⟩
      obtain ⟨stF, hF, hc, he, hu⟩ := ih { st with cachedIds := st.cachedIds ++ [(op.id, v)] } hrest
      refine ⟨stF, ?_, hc, he, hu⟩
      rw [walkOps, hdata, hv]
      exact hF
    | labelChange a r =>
      have hne : metaLookup op.meta metaKeyGiteaId ≠ none := by
        rcases hop with h1 | h2
        · simp [isSetMetaOp, hdata] at h1
        · exact h2
      obtain ⟨v, hv⟩ : ∃ v, metaLookup op.meta metaKeyGiteaId = some v := by
        cases hx : metaLookup op.meta metaKeyGiteaId
        · exact absurd hx hne
        · exact ⟨_, rfl⟩
      obtain ⟨stF, hF, hc, he, hu⟩ := ih { st with cachedIds := st.cachedIds ++ [(op.id, v)] } hrest
      refine ⟨stF, ?_, hc, he, hu⟩
      rw [walkOps, hdata, hv]
      exact hF

/-- C3 (amended): exporting a freshly imported bug back to the same target
performs zero remote write calls, PROVIDED the remote listing is faithful:
the note ids are pairwise distinct and none of them collides with the
issue's IID.  (Without that proviso the import's dedup lookup can resolve a
comment note against the creation operation and append an untagged
comment-edit operation, which the export walk then re-sends — see the
counterexample.) -/
theorem c3_roundtrip (conf : GConf) (clean : String → String) (clients : Clients) (R : WRemote)
    (issue : GIssue) (notes : List GNote) (levs : List GLabelEvent) (b : GBug)
    (hpair : List.Pairwise (fun a c => a.id ≠ c.id) notes)
    (hiid : ∀ n ∈ notes, n.id ≠ issue.iid)
    (himp : importIssue conf clean issue notes levs = some b) :
    ∃ evs b2, exportBug conf clients R b = some (evs, [], b2, true) := by
  have himp2 : (match importNotes clean issue notes
      ⟨⟨1, issue.author, .create issue.title (clean issue.description),
        issueCreateMeta conf issue⟩, []⟩ 2 with
    | none => none
    | some (b2, fid) =>
      match importLabelEvents levs b2 fid with
      | none => none
      | some (b3, _) => some b3) = some b := himp
  cases hn : importNotes clean issue notes
      ⟨⟨1, issue.author, .create issue.title (clean issue.description),
        issueCreateMeta conf issue⟩, []⟩ 2 with
  | none => rw [hn] at himp2; simp at himp2
  | some p =>
    obtain ⟨bN, fidN⟩ := p
    rw [hn] at himp2
    have himp3 : (match importLabelEvents levs bN fidN with
      | none => none
      | some (b3, _) => some b3) = some b := himp2
    cases hl : importLabelEvents levs bN fidN with
    | none => rw [hl] at himp3; simp at himp3
    | some q =>
      obtain ⟨bL, fidL⟩ := q
      rw [hl] at himp3
      have hb : bL = b := by simpa using himp3
      subst hb
      obtain ⟨hcrN, htagN⟩ := importNotes_tagged clean issue notes
        ⟨⟨1, issue.author, .create issue.title (clean issue.description),
          issueCreateMeta conf issue⟩, []⟩ 2 bN fidN hpair hiid (by rfl)
        (by intro o ho; simp at ho) hn
      obtain ⟨hcrL, htagL⟩ := importLabelEvents_tagged levs bN fidN bL fidL hl
      have hcreate : bL.createOp =
          ⟨1, issue.author, .create issue.title (clean issue.description),
            issueCreateMeta conf issue⟩ := hcrL.trans hcrN
      have htagAll : ∀ o ∈ bL.rest,
          isSetMetaOp o = true ∨ metaLookup o.meta metaKeyGiteaId ≠ none := by
        intro o ho
        rcases htagL o ho with ho2 | ho2
        · obtain ⟨i, hi⟩ := htagN o ho2
          exact Or.inr (by rw [hi]; simp)
        · exact Or.inr ho2
      have horig : getCreateMeta bL metaKeyOrigin = some (.str target) := by
        rw [getCreateMeta, hcreate]; rfl
      have hgid : getCreateMeta bL metaKeyGiteaId = some (.nat issue.iid) := by
        rw [getCreateMeta, hcreate]; rfl
      have hburl : getCreateMeta bL metaKeyGiteaBaseUrl = some (.str conf.baseUrl) := by
        rw [getCreateMeta, hcreate]; rfl
      have hproj : getCreateMeta bL metaKeyGiteaProject = some (.str conf.projectId) := by
        rw [getCreateMeta, hcreate]; rfl
      have hoskip : originSkip bL = false := by
        rw [originSkip, horig]; simp
      obtain ⟨stF, hwalk, hcalls, hevents, hupd⟩ := walkOps_all_tagged clients R issue.iid
        bL.createOp.id bL.rest
        ⟨bL, ∅, [(bL.createOp.id, MetaVal.nat issue.iid)], false, 0, [], []⟩ htagAll
      refine ⟨stF.events ++ [.nothingE "nothing has been exported"], stF.bug, ?_⟩
      simp only [exportBug, hoskip, Bool.false_eq_true, if_false, hgid, hburl, hproj, mAtoi]
      rw [if_neg (by simp)]
      rw [if_neg (by simp)]
      rw [hwalk]
      have hupd2 : (!stF.updated) = true := by rw [hupd]; rfl
      simp only [hupd2, Bool.true_and, if_true, hcalls, hevents]

theorem c3_roundtrip_witness :
    List.Pairwise (fun a c : GNote => a.id ≠ c.id) [c3wNote] ∧
    (∀ n ∈ [c3wNote], n.id ≠ c3issue.iid) ∧
    importIssue c3conf (fun s => s) c3issue [c3wNote] [] = some c3wBug ∧
    ∃ evs b2, exportBug c3conf c3clients c3remote c3wBug = some (evs, [], b2, true) :=
  ⟨by decide, by decide, by decide,
    c3_roundtrip c3conf (fun s => s) c3clients c3remote c3issue [c3wNote] [] c3wBug
      (by decide) (by decide) (by decide)⟩
